import Mathlib

/-!
Summit Express: page decoration scripts

A shallow embedding of the decoration routines of `express/scripts/scripts.js` and
`express/blocks/columns/columns.js`, followed by the properties established about them.

Conventions of the embedding:

* a DOM class list is a `List String` of tokens in document order;
* a `forEach` over a node list is a fold or an indexed map over a `List`;
* JavaScript numbers are exact rationals, extended with `NaN` and `+Infinity` where the
  code can produce them; the rounding of IEEE doubles is not modelled;
* a JavaScript exception is a value of `Except`; a loop that an exception cuts short
  returns the state it has reached together with the exception;
* strings are sequences of characters, and positions in them count characters; where the
  code works on UTF-16 code units in a way that shows (`toClassName`), a character beyond
  `U+FFFF` counts as two;
* built-ins that rest on the Unicode tables or on the full grammar of numeric literals
  (`toLowerCase`, the conversion applied by the unary plus) are parameters of the
  definitions that call them.
-/

set_option autoImplicit false

namespace SummitExpress

/-! ## Definitions -/

/-! ### `columns.js`: ordinal labels of a numbered list -/

/-- Cell of a block row, `$cell` in `columns.js`: the markup it contains, the tag name of
its first element child (`none` when it has no element child) and its class list. -/
structure Cell where
  innerHTML : String
  firstElementChild : Option String
  classList : List String
  deriving DecidableEq, Repr

/-- Text placed in `span.num` for the row with index `rowNum` (lines 128-139 of
`columns.js`): `num` starts as `rowNum + 1`, becomes the template `num/total —` padded
with a zero while `rowNum < 9` when `total > 9`, and `num.` otherwise. Integers are
rendered in decimal, as a template literal renders an integral number below `1e21`. -/
def numLabel (total : Int) (rowNum : Nat) : String :=
  let num := toString (rowNum + 1)
  if total > 9 then
    let num := num ++ "/" ++ toString total ++ " —"
    if rowNum < 9 then "0" ++ num else num
  else
    num ++ "."

/-- Numbering step of the cell loop (lines 126-141 of `columns.js`): the first cell of a
row of a numbered list gets `<span class="num">…</span>` in front of its markup, and the
span is then its first element child. -/
def numberCell (isNumberedList : Bool) (total : Int) (rowNum cellNum : Nat) (cell : Cell) :
    Cell :=
  if cellNum = 0 ∧ isNumberedList = true then
    { cell with
      innerHTML :=
        "<span class=\"num\">" ++ numLabel total rowNum ++ "</span>" ++ cell.innerHTML,
      firstElementChild := some "SPAN" }
  else
    cell

/-! ### `scripts.js`: block dispatch -/

/-- Exceptions raised by the DOM and by the language in the modelled code. -/
inductive DomError where
  | syntaxError
  | invalidCharacterError
  | typeError
  deriving DecidableEq, Repr

/-- ASCII whitespace, the separators of a class attribute. -/
def isAsciiWhitespace (c : Char) : Bool :=
  c = ' ' || c = '\t' || c = '\n' || c = '\r' || c = Char.ofNat 12

/-- Token accepted by `DOMTokenList.add`: not empty and free of ASCII whitespace. -/
def validToken (t : String) : Bool :=
  t != "" && !t.data.any isAsciiWhitespace

/-- Token-set update of `DOMTokenList.add`: each token not yet present is appended. -/
def addTokens (classList : List String) (tokens : List String) : List String :=
  tokens.foldl (fun cl t => if t ∈ cl then cl else cl ++ [t]) classList

/-- `classList.add(...tokens)`: an empty token raises `SyntaxError`, a token with
whitespace raises `InvalidCharacterError`, and nothing is added in either case. -/
def classListAdd (classList : List String) (tokens : List String) :
    Except DomError (List String) :=
  if tokens.any (fun t => t == "") then .error .syntaxError
  else if tokens.any (fun t => t.data.any isAsciiWhitespace) then .error .invalidCharacterError
  else .ok (addTokens classList tokens)

/-- `s.startsWith(p)`. -/
def startsWith (s p : String) : Bool :=
  p.data.isPrefixOf s.data

/-- `s.substring(n).split('-')`: the pieces between dashes of `s` without its first `n`
characters; the empty string gives one empty piece. -/
def splitAfter (s : String) (n : Nat) : List String :=
  ((s.data.drop n).splitOn '-').map String.mk

/-- The registry of option-bearing block types (line 102 of `scripts.js`). -/
def blocksWithOptions : List String := ["checker-board"]

/-- Mutable state of one run of the block callback: the block's class list and the
variable `blockName`. -/
structure Dispatch where
  classList : List String
  blockName : String
  deriving DecidableEq, Repr

/-- Body of `blocksWithOptions.forEach` (lines 103-110 of `scripts.js`) for the registry
entry `b`. An exception carries the class list reached when it was raised. -/
def applyOption (b : String) (st : Dispatch) : Except (DomError × List String) Dispatch :=
  if startsWith st.blockName (b ++ "-") then
    let options := splitAfter st.blockName (b.length + 1)
    match classListAdd st.classList [b] with
    | .error e => .error (e, st.classList)
    | .ok cl =>
      match classListAdd cl options with
      | .error e => .error (e, cl)
      | .ok cl' => .ok { classList := cl', blockName := b }
  else
    .ok st

/-- What the callback of `decorateBlocks` leaves behind for one block: its class list, the
class added to the enclosing section wrapper, and either the block name handed to
`import` and `loadCSS` or the exception that ended the callback early. -/
structure BlockRun where
  classList : List String
  sectionClass : String
  result : Except DomError String

/-- Synchronous part of the callback of `decorateBlocks` (lines 96-111 of `scripts.js`),
with the registry as a parameter. A block without classes has `blockName` undefined, and
`blockName.startsWith` raises `TypeError`. -/
def decorateBlockWith (registry : List String) (classes : List String) : BlockRun :=
  match classes with
  | [] => { classList := [], sectionClass := "undefined-container", result := .error .typeError }
  | blockName :: _ =>
    match registry.foldlM (fun st b => applyOption b st)
        ({ classList := classes, blockName := blockName } : Dispatch) with
    | .error (e, cl) =>
      { classList := cl, sectionClass := blockName ++ "-container", result := .error e }
    | .ok st =>
      match classListAdd st.classList ["block"] with
      | .error e =>
        { classList := st.classList, sectionClass := blockName ++ "-container",
          result := .error e }
      | .ok cl =>
        { classList := cl, sectionClass := blockName ++ "-container",
          result := .ok st.blockName }

/-- The callback of `decorateBlocks` with the registry of the source. -/
def decorateBlock (classes : List String) : BlockRun :=
  decorateBlockWith blocksWithOptions classes

/-- Module specifier passed to `import` (line 112 of `scripts.js`). -/
def modulePath (blockName : String) : String :=
  "/express/blocks/" ++ blockName ++ "/" ++ blockName ++ ".js"

/-- Stylesheet reference passed to `loadCSS` (line 119 of `scripts.js`). -/
def stylePath (blockName : String) : String :=
  "/express/blocks/" ++ blockName ++ "/" ++ blockName ++ ".css"

/-- `loadCSS(href)` on the list of stylesheet links of the document head (lines 127-138 of
`scripts.js`): a link is appended unless one with this `href` is present. -/
def loadCSS (href : String) (links : List String) : List String :=
  if href ∈ links then links else links ++ [href]

/-- Outcome of a dynamic `import`: the promise rejects, or it resolves to a module whose
default export returns or throws when called with the block. -/
inductive ImportResult where
  | rejected
  | loaded (decorateThrows : Bool)
  deriving DecidableEq, Repr

/-- Lines written to the console by the handlers of the import promise. -/
inductive LogEntry where
  | moduleLoaded (blockName : String)
  | failedToLoadModule
  deriving DecidableEq, Repr

/-- Handlers of the import promise (lines 113-117 of `scripts.js`): `then` logs the name
and calls the default export, `catch` logs the failure of the import or of that call. -/
def settleImport (outcome : ImportResult) (blockName : String) : List LogEntry :=
  match outcome with
  | .rejected => [.failedToLoadModule]
  | .loaded decorateThrows =>
    if decorateThrows then [.moduleLoaded blockName, .failedToLoadModule]
    else [.moduleLoaded blockName]

/-- Document-wide effects of `decorateBlocks`: stylesheet links in the head, module
specifiers passed to `import`, and the console. -/
structure PageState where
  links : List String
  moduleImports : List String
  console : List LogEntry
  deriving DecidableEq, Repr

/-- One block of `decorateBlocks` (lines 95-120 of `scripts.js`): the callback is `async`,
so an exception inside it rejects the callback's own promise and is not propagated; the
module and the stylesheet are requested only when line 112 is reached. Promise handlers
are run in block order. -/
def decorateBlocksStep (registry : List String) (importModule : String → ImportResult)
    (acc : PageState × List BlockRun) (classes : List String) : PageState × List BlockRun :=
  let run := decorateBlockWith registry classes
  match run.result with
  | .error _ => (acc.1, acc.2 ++ [run])
  | .ok blockName =>
    ({ links := loadCSS (stylePath blockName) acc.1.links,
       moduleImports := acc.1.moduleImports ++ [modulePath blockName],
       console := acc.1.console ++ settleImport (importModule (modulePath blockName)) blockName },
     acc.2 ++ [run])

/-- The loop of `decorateBlocks` over the blocks of the page, each given by its class list. -/
def decorateBlocks (registry : List String) (importModule : String → ImportResult)
    (page : PageState) (blocks : List (List String)) : PageState × List BlockRun :=
  blocks.foldl (decorateBlocksStep registry importModule) (page, [])

/-- Class name `b-o1-…-on` of a block of type `b` with options `o1 … on`. -/
def optionName (b : String) (opts : List String) : String :=
  ⟨b.data ++ '-' :: List.intercalate ['-'] (opts.map String.data)⟩

/-! ### `scripts.js`: A/B test variant selection -/

/-- Entry of `testSetup` (lines 565-568 of `scripts.js`): the path of the variant and its
share of the traffic, the percentage cell divided by 100. The percentage is taken to
parse to a finite number and the arithmetic is exact. -/
structure Variant where
  url : String
  traffic : ℚ
  deriving DecidableEq

/-- Body of `testSetup.forEach` (lines 575-580 of `scripts.js`) on the pair of the
variables `test` and `selectedUrl`. -/
def selectStep (st : ℚ × String) (e : Variant) : ℚ × String :=
  (st.1 - e.traffic, if 0 ≤ st.1 ∧ st.1 < e.traffic then e.url else st.2)

/-- Value of `selectedUrl` after the selection loop started with `test = sample`
(lines 573-580 of `scripts.js`); the empty string means that the page is kept. -/
def selectVariant (testSetup : List Variant) (sample : ℚ) : String :=
  (testSetup.foldl selectStep (sample, "")).2

/-- The selection loop body with a ghost counter and a ghost record of the index of the
iteration that last assigned `selectedUrl`. -/
def pickStep (st : ℚ × Nat × Option Nat) (e : Variant) : ℚ × Nat × Option Nat :=
  (st.1 - e.traffic, st.2.1 + 1, if 0 ≤ st.1 ∧ st.1 < e.traffic then some st.2.1 else st.2.2)

/-- Index of the variant whose URL the selection loop leaves in `selectedUrl`, if any. -/
def pickedIndex (testSetup : List Variant) (sample : ℚ) : Option Nat :=
  (testSetup.foldl pickStep (sample, 0, none)).2.2

/-- Sum of the traffic shares of the first `i` variants. -/
def cumTraffic (testSetup : List Variant) (i : Nat) : ℚ :=
  ((testSetup.take i).map Variant.traffic).sum

/-- Sum of all traffic shares. -/
def totalTraffic (testSetup : List Variant) : ℚ :=
  (testSetup.map Variant.traffic).sum

/-- The sample `r` lies in the cumulative traffic interval of variant `i`, the half-open
interval from the sum of the shares before `i` to that sum plus the share of `i`. -/
def hits (testSetup : List Variant) (r : ℚ) (i : Nat) : Prop :=
  match testSetup[i]? with
  | some e => cumTraffic testSetup i ≤ r ∧ r < cumTraffic testSetup i + e.traffic
  | none => False

instance (testSetup : List Variant) (r : ℚ) (i : Nat) : Decidable (hits testSetup r i) := by
  unfold hits
  split <;> infer_instance

/-! ### `columns.js`: heading scaling -/

/-- Values of the JavaScript numbers computed by `scaleHeader`. All of them are
non-negative, so neither a negative zero nor a negative infinity can arise. -/
inductive JsNum where
  | nan
  | inf
  | fin (q : ℚ)
  deriving DecidableEq

/-- Heading levels, the keys of the two tables of `scaleHeader`. -/
inductive Tag where
  | H1 | H2 | H3 | H4 | H5 | H6
  deriving DecidableEq, Repr

/-- Default line heights in pixels (lines 55-62 of `columns.js`). -/
def convTag2LineHeight : Tag → ℚ
  | .H1 => 63.6
  | .H2 => 48.6
  | .H3 => 39.96
  | .H4 => 31.92
  | .H5 => 31.92
  | .H6 => 31.92

/-- Default font sizes in pixels (lines 63-70 of `columns.js`). -/
def convTag2FontSize : Tag → ℚ
  | .H1 => 60
  | .H2 => 45
  | .H3 => 36
  | .H4 => 28
  | .H5 => 28
  | .H6 => 28

/-- The constant `maxLines` (line 71 of `columns.js`). -/
def maxLines : ℚ := 3

/-- White space and line terminators of the language, skipped by `parseInt` and removed
by `trim`. -/
def isJsWhiteSpace (c : Char) : Bool :=
  c.toNat = 0x09 || c.toNat = 0x0A || c.toNat = 0x0B || c.toNat = 0x0C || c.toNat = 0x0D ||
  c.toNat = 0x20 || c.toNat = 0xA0 || c.toNat = 0x1680 ||
  (0x2000 ≤ c.toNat && c.toNat ≤ 0x200A) ||
  c.toNat = 0x2028 || c.toNat = 0x2029 || c.toNat = 0x202F || c.toNat = 0x205F ||
  c.toNat = 0x3000 || c.toNat = 0xFEFF

/-- Value of a run of decimal digits. -/
def digitsValue (ds : List Char) : Nat :=
  ds.foldl (fun acc d => 10 * acc + (d.toNat - '0'.toNat)) 0

/-- Heading of the document as `scaleHeader` sees it: its tag, whether the selector
`main .columns h1, …, main .columns h5` reaches it through a columns block, the computed
values of `height` and `line-height` as strings, and the two inline style lengths in
pixels, `none` while unset. -/
structure Heading where
  tagName : Tag
  inColumns : Bool
  height : String
  lineHeight : String
  styleFontSize : Option JsNum
  styleLineHeight : Option JsNum
  deriving DecidableEq

/-- `s.match('\\d+')`: the first maximal run of decimal digits, `none` for `null`. -/
def firstDigits : List Char → Option (List Char)
  | [] => none
  | c :: cs => if c.isDigit then some (c :: cs.takeWhile Char.isDigit) else firstDigits cs

/-- The constant `heightInt` (line 81 of `columns.js`); `none` when the height has no
digit, where indexing the `null` match raises `TypeError`. -/
def heightInt (height : String) : Option Nat :=
  (firstDigits height.data).map digitsValue

/-- Line terminators, which the dot of a pattern does not match. -/
def isLineTerminator (c : Char) : Bool :=
  c.toNat = 0x0A || c.toNat = 0x0D || c.toNat = 0x2028 || c.toNat = 0x2029

/-- `s.match('\\d+.\\d+')`, the leftmost match of digits, any character, digits: a run
of digits followed by a character and a digit matches up to the end of the second run of
digits; failing that, a run of three or more digits matches as a whole, its last but one
digit taken by the dot. The result is the first run with, if any, the character and the
second run. -/
def matchLineHeight : List Char → Option (List Char × Option (Char × List Char))
  | [] => none
  | c :: cs =>
    if c.isDigit then
      let run := c :: cs.takeWhile Char.isDigit
      match cs.dropWhile Char.isDigit with
      | d :: d2 :: rest =>
        if !isLineTerminator d && d2.isDigit then
          some (run, some (d, d2 :: rest.takeWhile Char.isDigit))
        else if 3 ≤ run.length then some (run, none)
        else matchLineHeight cs
      | _ => if 3 ≤ run.length then some (run, none) else matchLineHeight cs
    else matchLineHeight cs

/-- The constant `lineHeightFloat` (line 82 of `columns.js`), `parseFloat` of the match:
`none` is `NaN`, the result without a match; the second run is a fraction after a dot, an
exponent after `e` or `E`, and is not read after any other character. -/
def lineHeightFloat (lineHeight : String) : Option ℚ :=
  match matchLineHeight lineHeight.data with
  | none => none
  | some (run, none) => some (digitsValue run)
  | some (run, some (d, run2)) =>
    if d = '.' then some (digitsValue run + (digitsValue run2 : ℚ) / 10 ^ run2.length)
    else if d = 'e' ∨ d = 'E' then some ((digitsValue run : ℚ) * 10 ^ digitsValue run2)
    else some (digitsValue run)

/-- `Math.ceil(heightInt / lineHeightFloat)` (line 84 of `columns.js`): a `NaN` divisor
gives `NaN`, a zero divisor gives `NaN` for a zero height and `Infinity` otherwise. -/
def headerLines (heightInt : Nat) (lineHeightFloat : Option ℚ) : JsNum :=
  match lineHeightFloat with
  | none => .nan
  | some q =>
    if q = 0 then (if heightInt = 0 then .nan else .inf)
    else .fin (⌈(heightInt : ℚ) / q⌉ : ℤ)

/-- `maxLines / headerLines` (line 86 of `columns.js`). -/
def scaleOf (lines : JsNum) : JsNum :=
  match lines with
  | .nan => .nan
  | .inf => .fin 0
  | .fin n => if n = 0 then .inf else .fin (maxLines / n)

/-- Body of the `forEach` of `scaleHeader` for a selected heading (lines 75-92 of
`columns.js`): a height without digits raises `TypeError`; both inline lengths are set
when `scale < 1`, a comparison that is false for `NaN` and for `Infinity`. -/
def scaleHeading (h : Heading) : Except DomError Heading :=
  match heightInt h.height with
  | none => .error .typeError
  | some H =>
    match scaleOf (headerLines H (lineHeightFloat h.lineHeight)) with
    | .fin scale =>
      if scale < 1 then
        .ok { h with
          styleFontSize := some (.fin (convTag2FontSize h.tagName * scale)),
          styleLineHeight := some (.fin (convTag2LineHeight h.tagName * scale)) }
      else .ok h
    | _ => .ok h

/-- The selector of line 73 of `columns.js`: headings of level 1 to 5 in a columns block. -/
def selected (h : Heading) : Bool :=
  h.inColumns && h.tagName != .H6

/-- `scaleHeader` (lines 50-94 of `columns.js`) on the headings of the document in
document order: the headings afterwards and the exception that ended the loop, if any;
the headings after the one that raised are not visited. -/
def scaleHeader : List Heading → List Heading × Option DomError
  | [] => ([], none)
  | h :: hs =>
    if selected h then
      match scaleHeading h with
      | .error e => (h :: hs, some e)
      | .ok h' => (h' :: (scaleHeader hs).1, (scaleHeader hs).2)
    else (h :: (scaleHeader hs).1, (scaleHeader hs).2)

/-! ### `scripts.js`: tutorials and their tag filter -/

/-- Record pushed to `tutorials` for one row of a tutorials block (lines 750-752 of
`scripts.js`); `img` is `none` when the row has no image. -/
structure Tutorial where
  title : String
  link : String
  time : String
  tags : List String
  categories : List String
  img : Option String
  deriving DecidableEq, Repr

/-- Card built by `createTutorialCard`: its markup and the record its click handler hands
to `displayTutorial`. -/
structure TutorialCard where
  innerHTML : String
  tutorial : Tutorial
  deriving DecidableEq, Repr

/-- `createTutorialCard` (lines 653-681 of `scripts.js`); an absent or empty image source
is falsy and selects the badge markup. -/
def createTutorialCard (tutorial : Tutorial) : TutorialCard :=
  let withImage : Option String :=
    match tutorial.img with
    | some src => if src = "" then none else some src
    | none => none
  let img :=
    match withImage with
    | some src => "<img src=\"" ++ src ++ "\">"
    | none => "<div class=\"badge\"></div><div class=\"title\">" ++ tutorial.title ++ "</div>"
  let noimg :=
    match withImage with
    | some _ => ""
    | none => "noimg"
  { innerHTML :=
      "<div class=\"tutorial-card-image\">\n  </div>\n  <div class=\"tutorial-card-img " ++
      noimg ++ "\">\n    " ++ img ++ "\n    <div class=\"duration\">" ++ tutorial.time ++
      "</div>\n  </div>\n  <div class=\"tutorial-card-title\">\n  <h3>" ++ tutorial.title ++
      "</h3>\n  </div>\n  <div class=\"tutorial-card-tags\">\n  <span>" ++
      String.intercalate "</span><span>" tutorial.tags ++ "</span>\n  </div>\n  ",
    tutorial := tutorial }

/-- `classList.remove(token)`. -/
def classListRemove (classList : List String) (token : String) : List String :=
  classList.filter fun t => t ≠ token

/-- Body of the `forEach` of `toggleCategories` (lines 695-708 of `scripts.js`) on the
children already visited and the flag `afterTutorials`. -/
def toggleStep (show_ : Bool) (st : List (List String) × Bool) (e : List String) :
    List (List String) × Bool :=
  let e' :=
    if st.2 then (if show_ then classListRemove e "hidden" else addTokens e ["hidden"])
    else e
  (st.1 ++ [e'], st.2 || decide ("tutorials" ∈ e'))

/-- `toggleCategories` (lines 692-709 of `scripts.js`) on the class lists of the children
of the section, in document order. -/
def toggleCategories (children : List (List String)) (show_ : Bool) :
    List (List String) :=
  (children.foldl (toggleStep show_) ([], false)).1

/-- What `displayFilteredTutorials` works on: the cards in the results container and the
class lists of the children of the enclosing section. -/
structure FilterView where
  results : List TutorialCard
  section_ : List (List String)
  deriving DecidableEq, Repr

/-- `displayFilteredTutorials` (lines 711-726 of `scripts.js`); `filters` is the text of
the selected chips. The container is emptied first, then the cards are appended one by
one. -/
def displayFilteredTutorials (tutorials : List Tutorial) (view : FilterView)
    (filters : List String) : FilterView :=
  let emptied : List TutorialCard := []
  if filters.length ≠ 0 then
    let matches_ := tutorials.filter fun tut => filters.all fun v => decide (v ∈ tut.tags)
    { results := matches_.foldl (fun results m => results ++ [createTutorialCard m]) emptied,
      section_ := toggleCategories view.section_ false }
  else
    { results := emptied, section_ := toggleCategories view.section_ true }

/-- The tag loop of `decorateTutorials` (lines 754-756 of `scripts.js`) for one row. -/
def pushTags (allTags : List String) (tags : List String) : List String :=
  tags.foldl (fun acc tag => if tag ∈ acc then acc else acc ++ [tag]) allTags

/-- Value of `allTags` after the row loop of `decorateTutorials` (lines 732-757 of
`scripts.js`), from the records of the rows in document order. -/
def allTagsOf (tutorials : List Tutorial) : List String :=
  tutorials.foldl (fun allTags t => pushTags allTags t.tags) []

/-- Filter chip, a `span` of class `tag-filter`. -/
structure TagFilter where
  innerHTML : String
  classList : List String
  deriving DecidableEq, Repr

/-- Children of the `filters` container after the chip loop of `decorateTutorials`
(lines 763-772 of `scripts.js`). -/
def tagFilters (tutorials : List Tutorial) : List TagFilter :=
  (allTagsOf tutorials).foldl
    (fun filters tag => filters ++ [{ innerHTML := tag, classList := ["tag-filter"] }]) []

/-! ### `scripts.js`: How-To schema -/

/-- Cell of a row of a how-to-steps block, by its text content. -/
structure HowToCell where
  textContent : String
  deriving DecidableEq, Repr

/-- A how-to-steps block: the text content of its previous element sibling (`none` when
there is no such sibling) and the cells of its rows. -/
structure HowToBlock where
  heading : Option String
  rows : List (List HowToCell)
  deriving DecidableEq, Repr

/-- Entry of `schema.step` (lines 490-498 of `scripts.js`); `text` is the text of the
`HowToDirection` in `itemListElement`. -/
structure HowToStep where
  position : Nat
  name : String
  text : String
  deriving DecidableEq, Repr

/-- The object `schema` (lines 478-483 of `scripts.js`), of context `http://schema.org`
and type `HowTo`. -/
structure HowToSchema where
  name : String
  step : List HowToStep
  deriving DecidableEq, Repr

/-- Script element appended to the head; its content is `JSON.stringify` of `schema`. -/
structure SchemaScript where
  scriptType : String
  schema : HowToSchema
  deriving DecidableEq, Repr

/-- Children of a row after decoration: the number `div`, the second cell with the `h3`
put in front of its content and the class `tip`, and the cells after the second. -/
inductive RowChild where
  | number (innerHTML : String)
  | tip (h3 : String) (cell : HowToCell)
  | cell (c : HowToCell)
  deriving DecidableEq, Repr

/-- Body of `$rows.forEach` (lines 485-504 of `scripts.js`) for the row of index `i`: the
step pushed to the schema and the children the row is left with. Reading `textContent`
of a missing first or second cell raises `TypeError`. -/
def howToRow (i : Nat) (cells : List HowToCell) : Except DomError (HowToStep × List RowChild) :=
  match cells with
  | c0 :: c1 :: rest =>
    .ok ({ position := i + 1, name := c0.textContent, text := c1.textContent },
      RowChild.number ("<span>" ++ toString (i + 1) ++ "</span>") ::
        RowChild.tip c0.textContent c1 :: rest.map RowChild.cell)
  | _ => .error .typeError

/-- The loop `$rows.forEach` from the row of index `i` on. -/
def howToRows (i : Nat) :
    List (List HowToCell) → Except DomError (List HowToStep × List (List RowChild))
  | [] => .ok ([], [])
  | cells :: rest =>
    match howToRow i cells with
    | .error e => .error e
    | .ok (step, children) =>
      match howToRows (i + 1) rest with
      | .error e => .error e
      | .ok (steps, decorated) => .ok (step :: steps, children :: decorated)

/-- Callback of `decorateHowTo` for one block (lines 475-506 of `scripts.js`): the schema
and the decorated rows. Reading `textContent` of a missing previous sibling raises
`TypeError`. -/
def howToBlock (b : HowToBlock) : Except DomError (HowToSchema × List (List RowChild)) :=
  match b.heading with
  | none => .error .typeError
  | some name =>
    match howToRows 0 b.rows with
    | .error e => .error e
    | .ok (steps, decorated) => .ok ({ name := name, step := steps }, decorated)

/-- `decorateHowTo` (lines 472-508 of `scripts.js`) on the how-to-steps blocks of the page
in document order: the scripts in the head afterwards, and the exception that ended the
loop early, if any. -/
def decorateHowTo (head : List SchemaScript) :
    List HowToBlock → List SchemaScript × Option DomError
  | [] => (head, none)
  | b :: bs =>
    match howToBlock b with
    | .error e => (head, some e)
    | .ok (schema, _) =>
      decorateHowTo (head ++ [{ scriptType := "application/ld+json", schema := schema }]) bs

/-- Step recorded for the row of index `i`, read from the first two cells of the row as
they are before the row is decorated. -/
def stepOfRow (i : Nat) (row : List HowToCell) : HowToStep :=
  { position := i + 1,
    name := ((row[0]?).map HowToCell.textContent).getD "",
    text := ((row[1]?).map HowToCell.textContent).getD "" }

/-! ### `scripts.js`: gating of the A/B test -/

/-- `s.includes(t)`: `t` occurs in `s` as a run of consecutive characters. -/
def includes (s t : String) : Bool :=
  decide (t.data <:+: s.data)

/-- The parts of `window.location` read by `decorateTesting`. -/
structure Location where
  host : String
  hash : String
  search : String
  deriving DecidableEq, Repr

/-- `navigator.userAgent.match(/bot|crawl|spider/i)` as a truth value. The pattern has
ASCII letters only and no `u` flag, so a character matches a pattern letter exactly when
it is that letter in either ASCII case. -/
def isBot (userAgent : String) : Bool :=
  let ua : String := ⟨userAgent.data.map Char.toLower⟩
  includes ua "bot" || includes ua "crawl" || includes ua "spider"

/-- Value of the variable `runTest` when line 548 of `scripts.js` is reached (lines
523-546): four assignments in sequence, each overriding the ones before. -/
def runTest (loc : Location) (userAgent : String) : Bool :=
  let runTest := true
  let runTest := if !includes loc.host "adobe.com" then false else runTest
  let runTest := if loc.hash != "" then false else runTest
  let runTest := if loc.search == "?test" then true else runTest
  let runTest := if isBot userAgent then false else runTest
  runTest

/-! ### `columns.js`: the total of a numbered list -/

/-- Result of `parseInt(s, 10)`: `NaN`, an integer of magnitude at most 2^53, which the
language holds exactly and renders in decimal, or a larger one, which it rounds and whose
value is left out of the model. -/
inductive ParsedInt where
  | nan
  | exact (i : Int)
  | rounded
  deriving DecidableEq, Repr

/-- `parseInt(s, 10)`: leading white space is skipped, one sign is read, then the longest
run of decimal digits. -/
def parseInt10 (s : String) : ParsedInt :=
  let trimmed := s.data.dropWhile isJsWhiteSpace
  let negative : Bool :=
    match trimmed with
    | '-' :: _ => true
    | _ => false
  let unsigned :=
    match trimmed with
    | '-' :: rest => rest
    | '+' :: rest => rest
    | _ => trimmed
  let digits := unsigned.takeWhile Char.isDigit
  if digits = [] then .nan
  else if 2 ^ 53 < digitsValue digits then .rounded
  else if negative then .exact (-(digitsValue digits : Int))
  else .exact (digitsValue digits : Int)

/-- A columns block as `decorate` receives it: its class list and the cells of its rows. -/
structure ColumnsBlock where
  classList : List String
  rows : List (List Cell)
  deriving DecidableEq, Repr

/-- Class list of the block after lines 99-107 of `columns.js`: `table` is added for more
than one row, `width-K-columns` when the first row has `K > 0` cells. -/
def columnsClassList (b : ColumnsBlock) : List String :=
  let classList := if b.rows.length > 1 then addTokens b.classList ["table"] else b.classList
  let numCols :=
    match b.rows with
    | [] => 0
    | row :: _ => row.length
  if numCols ≠ 0 then addTokens classList ["width-" ++ toString numCols ++ "-columns"]
  else classList

/-- The constant `isNumberedList` (line 110 of `columns.js`). -/
def isNumberedList (b : ColumnsBlock) : Bool :=
  decide ("numbered" ∈ columnsClassList b)

/-- Value of `total` when the row loop starts (lines 109-117 of `columns.js`); `none` when
the class at index 3 is an integer beyond 2^53, outside the model. -/
def columnsTotal (b : ColumnsBlock) : Option Int :=
  let total : Int := b.rows.length
  if isNumberedList b ∧ (columnsClassList b).length > 4 then
    match ((columnsClassList b)[3]?).map parseInt10 with
    | some (.exact i) => some i
    | some .rounded => none
    | _ => some total
  else some total

/-- The steps of the cell loop that work on the content of a cell and are given from
outside: `iconList` is `decorateIconList` for a cell with an icon (lines 122-124 of
`columns.js`), `media` is the handling of pictures, links and buttons and the removal of
empty paragraphs (lines 143-170, with `linkImage` and `transformLinkToAnimation`),
`poweredBy` the marking of paragraphs (lines 177-182). An exception carries the cell as
it is when raised. -/
structure CellSteps where
  iconList : Cell → Except (DomError × Cell) Cell
  media : Cell → Except (DomError × Cell) Cell
  poweredBy : Cell → Cell

/-- The steps for a cell without icons, pictures, links and paragraphs: nothing to do. -/
def plainSteps : CellSteps :=
  { iconList := fun c => .ok c, media := fun c => .ok c, poweredBy := fun c => c }

/-- Lines 172-182 of `columns.js`: the class `column` is added, reading the tag name of
a missing first element child raises `TypeError`, a `PICTURE` adds `column-picture`. -/
def finishCell (steps : CellSteps) (cell : Cell) : Except (DomError × Cell) Cell :=
  let c := { cell with classList := addTokens cell.classList ["column"] }
  match c.firstElementChild with
  | none => .error (.typeError, c)
  | some tag =>
    .ok (steps.poweredBy
      (if tag = "PICTURE" then
        { c with classList := addTokens c.classList ["column-picture"] }
      else c))

/-- Body of `$cells.forEach` (lines 121-183 of `columns.js`). -/
def decorateCell (steps : CellSteps) (isNumberedList : Bool) (total : Int)
    (rowNum cellNum : Nat) (cell : Cell) : Except (DomError × Cell) Cell :=
  match steps.iconList cell with
  | .error e => .error e
  | .ok c1 =>
    match steps.media (numberCell isNumberedList total rowNum cellNum c1) with
    | .error e => .error e
    | .ok c2 => finishCell steps c2

/-- `$cells.forEach` from the cell of index `cellNum` on: the cells afterwards and the
exception that ended the loop, if any; the cells after the one that raised are
untouched. -/
def decorateCells (f : Nat → Cell → Except (DomError × Cell) Cell) :
    Nat → List Cell → List Cell × Option DomError
  | _, [] => ([], none)
  | cellNum, c :: cs =>
    match f cellNum c with
    | .error (e, c') => (c' :: cs, some e)
    | .ok c' => (c' :: (decorateCells f (cellNum + 1) cs).1,
        (decorateCells f (cellNum + 1) cs).2)

/-- `$rows.forEach` from the row of index `rowNum` on (lines 119-184 of `columns.js`):
an exception in a row ends this loop too. -/
def decorateRows (g : Nat → Nat → Cell → Except (DomError × Cell) Cell) :
    Nat → List (List Cell) → List (List Cell) × Option DomError
  | _, [] => ([], none)
  | rowNum, row :: rows =>
    match (decorateCells (g rowNum) 0 row).2 with
    | some e => ((decorateCells (g rowNum) 0 row).1 :: rows, some e)
    | none => ((decorateCells (g rowNum) 0 row).1 :: (decorateRows g (rowNum + 1) rows).1,
        (decorateRows g (rowNum + 1) rows).2)

/-- What `decorate` leaves behind: the headings of the document, the class list and the
rows of the block, and the exception that ended it early, if any. -/
structure ColumnsOutcome where
  headings : List Heading
  classList : List String
  rows : List (List Cell)
  error : Option DomError
  deriving DecidableEq

/-- `decorate` (lines 96-185 of `columns.js`): `scaleHeader` runs first on the headings
of the document, and an exception there leaves the block as it is; `none` when the total
is outside the model. -/
def decorate (steps : CellSteps) (headings : List Heading) (b : ColumnsBlock) :
    Option ColumnsOutcome :=
  match (scaleHeader headings).2 with
  | some e =>
    some { headings := (scaleHeader headings).1, classList := b.classList, rows := b.rows,
           error := some e }
  | none =>
    match columnsTotal b with
    | none => none
    | some total =>
      some { headings := (scaleHeader headings).1, classList := columnsClassList b,
             rows := (decorateRows (decorateCell steps (isNumberedList b) total) 0 b.rows).1,
             error := (decorateRows (decorateCell steps (isNumberedList b) total) 0 b.rows).2 }

/-- The comparison `headerLines > maxLines` on a line count: false for `NaN`, true for
`Infinity`. -/
def exceedsMaxLines : JsNum → Bool
  | .nan => false
  | .inf => true
  | .fin n => decide (maxLines < n)

/-! ### `scripts.js`: byline of a blog page -/

/-- A `p` element of the second section of the page, by its text and its markup. -/
structure Paragraph where
  textContent : String
  innerHTML : String
  deriving DecidableEq, Repr

/-- The array `months` (lines 464-465 of `scripts.js`). -/
def months : List String :=
  ["January", "February", "March", "April", "May", "June", "July",
    "August", "September", "October", "November", "December"]

/-- `s.substring(n)`, counting characters. -/
def substring (s : String) (n : Nat) : String :=
  ⟨s.data.drop n⟩

/-- The text `months[x - 1]` takes in the template, for `x` the number read from the
first part of the date (`none` when it is not a finite number): a month name when
`x - 1` is one of the indices 0 to 11, and `undefined` otherwise. -/
def monthName (x : Option ℚ) : String :=
  match x with
  | none => "undefined"
  | some q =>
    if q.den = 1 ∧ 1 ≤ q.num ∧ q.num ≤ 12 then months.getD (q.num.toNat - 1) "undefined"
    else "undefined"

/-- Markup assigned to the byline paragraph (lines 462-466 of `scripts.js`), from the
texts of the two paragraphs; `toNumber` is the conversion applied by the unary plus. A
missing second or third part of the date reads as `undefined`. -/
def bylineMarkup (toNumber : String → Option ℚ) (byText postedText : String) : String :=
  let by_ := substring byText 3
  let posted := splitAfter postedText 10
  "<span class=\"byline\"><img src=\"/icons/user.svg\"> " ++ by_ ++ " | " ++
    monthName (toNumber (posted.getD 0 "undefined")) ++ " " ++
    posted.getD 1 "undefined" ++ ", " ++ posted.getD 2 "undefined" ++ " </span>"

/-- Body of the paragraph loop (lines 458-461 of `scripts.js`) on the variables `$by` and
`$postedOn`, each holding a paragraph with its index once assigned, and the index of the
paragraph visited; `toLowerCase` is the method of that name of strings. -/
def bylineScanStep (toLowerCase : String → String)
    (st : Option (Nat × Paragraph) × Option (Nat × Paragraph) × Nat) (p : Paragraph) :
    Option (Nat × Paragraph) × Option (Nat × Paragraph) × Nat :=
  (if st.1.isNone && startsWith (toLowerCase p.textContent) "by " then some (st.2.2, p)
    else st.1,
   if st.2.1.isNone && startsWith (toLowerCase p.textContent) "posted on " then
      some (st.2.2, p)
    else st.2.1,
   st.2.2 + 1)

/-- `decorateBlogPage` (lines 452-470 of `scripts.js`) on the paragraphs of the second
section, `none` when the page has fewer than two sections: the markup of the paragraphs
afterwards. A missing section or paragraph raises `TypeError`; the rewriting of legacy
links at the end is left out. -/
def decorateBlogPage (toLowerCase : String → String) (toNumber : String → Option ℚ)
    (isBlogPage : Bool) (body : Option (List Paragraph)) :
    Except DomError (Option (List String)) :=
  if isBlogPage then
    match body with
    | none => .error .typeError
    | some ps =>
      match ps.foldl (bylineScanStep toLowerCase) (none, none, 0) with
      | (some (i, pBy), some (j, pPosted), _) =>
        .ok (some (((ps.map Paragraph.innerHTML).set i
          (bylineMarkup toNumber pBy.textContent pPosted.textContent)).eraseIdx j))
      | _ => .error .typeError
  else
    .ok (body.map fun ps => ps.map Paragraph.innerHTML)

/-- First paragraph from index `idx` on, with its index, that satisfies `pred`. -/
def firstWith (pred : Paragraph → Bool) : List Paragraph → Nat → Option (Nat × Paragraph)
  | [], _ => none
  | p :: ps, idx => if pred p then some (idx, p) else firstWith pred ps (idx + 1)

/-! ### `scripts.js`: filter of the migrated pages -/

/-- Entry of `window.fullIndex`, with `image` and `title` as a template renders them. -/
structure PageEntry where
  path : String
  image : String
  title : String
  deriving DecidableEq, Repr

/-- Card appended to the results: its markup and the path its click handler navigates
to. -/
structure PageCard where
  innerHTML : String
  href : String
  deriving DecidableEq, Repr

/-- `s.replace(pat, rep)` for a string pattern, on character lists: the first occurrence
of `pat` is replaced. -/
def replaceFirst (pat rep : List Char) : List Char → List Char
  | [] => if pat = [] then rep else []
  | c :: cs =>
    if pat.isPrefixOf (c :: cs) then rep ++ (c :: cs).drop pat.length
    else c :: replaceFirst pat rep cs

/-- `s.split(pat).join(rep)` for a non-empty `pat`, on character lists: the occurrences of
`pat` found from left to right without overlap are replaced; `skip` counts the characters
of an occurrence still to be passed over. -/
def splitJoin (pat rep : List Char) : Nat → List Char → List Char
  | _, [] => []
  | skip + 1, _ :: cs => splitJoin pat rep skip cs
  | 0, c :: cs =>
    if pat.isPrefixOf (c :: cs) then rep ++ splitJoin pat rep (pat.length - 1) cs
    else c :: splitJoin pat rep 0 cs

/-- The card of one matching page (lines 372-388 of `scripts.js`). -/
def pageCard (filter : String) (page : PageEntry) : PageCard :=
  let path := if startsWith page.path "/" then page.path else "/" ++ page.path
  let path : String := ⟨replaceFirst ".html".data [] path.data⟩
  let markedUpPath : String :=
    if filter ≠ "" then
      ⟨splitJoin filter.data ("<b>" ++ filter ++ "</b>").data 0 path.data⟩
    else path
  { innerHTML :=
      "<div class=\"card-image\">\n          <img loading=\"lazy\" src=\"" ++ page.image ++
      "\">\n        </div>\n        <div class=\"card-body\">\n          <h3>" ++ page.title ++
      "</h3>\n          <p>" ++ markedUpPath ++ "</p>\n        </div>",
    href := path }

/-- The two elements `filterMigratedPages` writes to: the cards in the results container
and the markup of the stats line. -/
structure PageFilterView where
  results : List PageCard
  stats : String
  deriving DecidableEq, Repr

/-- Body of `index.forEach` (lines 369-390 of `scripts.js`) on the variable `counter` and
the children of the results container. -/
def filterPageStep (filter : String) (st : Nat × List PageCard) (page : PageEntry) :
    Nat × List PageCard :=
  if includes page.path filter then (st.1 + 1, st.2 ++ [pageCard filter page]) else st

/-- `filterMigratedPages` (lines 362-393 of `scripts.js`); `index` is `none` while
`window.fullIndex` is unset. The results container is emptied first. -/
def filterMigratedPages (_view : PageFilterView) (index : Option (List PageEntry))
    (filter : String) : PageFilterView :=
  let emptied : List PageCard := []
  let st : Nat × List PageCard :=
    match index with
    | some pages => pages.foldl (filterPageStep filter) (0, emptied)
    | none => (0, emptied)
  { results := st.2,
    stats := toString st.1 ++ " page" ++ (if st.1 ≠ 1 then "s" else "") ++ " found" }

/-! ### `scripts.js`: filter of the blog posts -/

/-- Entry of the blog index: its string fields by name. -/
structure Post where
  fields : List (String × String)
  deriving DecidableEq, Repr

/-- `post[name]`, `none` for `undefined`. -/
def Post.get (post : Post) (name : String) : Option String :=
  post.fields.lookup name

/-- Value of a filter: one string or an array of strings. -/
inductive FilterValue where
  | scalar (v : String)
  | array (vs : List String)
  deriving DecidableEq, Repr

/-- `Array.isArray(vals) ? vals : [vals]` (lines 208-211 of `scripts.js`). -/
def FilterValue.toArray : FilterValue → List String
  | .scalar v => [v]
  | .array vs => vs

/-- `s.trim()`. -/
def jsTrim (s : String) : String :=
  ⟨((s.data.dropWhile isJsWhiteSpace).reverse.dropWhile isJsWhiteSpace).reverse⟩

/-- The object `f` (lines 205-215 of `scripts.js`): every filter value lower-cased and
trimmed, under the name of its filter. -/
def normalizeFilters (toLowerCase : String → String) (filters : List (String × FilterValue)) :
    List (String × List String) :=
  filters.map fun nv => (nv.1, nv.2.toArray.map fun e => jsTrim (toLowerCase e))

/-- Callback of `index.filter` (lines 217-232 of `scripts.js`): the names of `f` are
visited until one has no matching value. Lower-casing the field of a post that lacks it
raises `TypeError`, which happens only for a name with at least one value. -/
def postMatches (toLowerCase : String → String) :
    List (String × List String) → Post → Except DomError Bool
  | [], _ => .ok true
  | (name, vals) :: rest, post =>
    match vals with
    | [] => .ok false
    | _ :: _ =>
      match post.get name with
      | none => .error .typeError
      | some field =>
        if vals.any (fun val => includes (toLowerCase field) val) then
          postMatches toLowerCase rest post
        else .ok false

/-- `index.filter` with the callback above: the first exception ends it. -/
def filterPosts (toLowerCase : String → String) (f : List (String × List String)) :
    List Post → Except DomError (List Post)
  | [] => .ok []
  | post :: rest =>
    match postMatches toLowerCase f post with
    | .error e => .error e
    | .ok keep =>
      match filterPosts toLowerCase f rest with
      | .error e => .error e
      | .ok kept => .ok (if keep then post :: kept else kept)

/-- `filterBlogPosts` (lines 199-235 of `scripts.js`) on the cached index. -/
def filterBlogPosts (toLowerCase : String → String) (index : List Post)
    (filters : List (String × FilterValue)) : Except DomError (List Post) :=
  filterPosts toLowerCase (normalizeFilters toLowerCase filters) index

/-! ### `scripts.js`: class names from titles -/

/-- The characters the pattern `/[^0-9a-z]/gi` leaves alone: digits and ASCII letters of
either case. Without the `u` flag no character outside ASCII is matched by an ASCII
letter of the class. -/
def inAlnumClass (c : Char) : Bool :=
  (48 ≤ c.toNat && c.toNat ≤ 57) || (97 ≤ c.toNat && c.toNat ≤ 122) ||
    (65 ≤ c.toNat && c.toNat ≤ 90)

/-- What `replace(/[^0-9a-z]/gi, '-')` puts for one character: the pattern works on
UTF-16 code units, so a character beyond `U+FFFF`, two code units, gives two dashes. -/
def dashed (c : Char) : List Char :=
  if inAlnumClass c then [c]
  else if 0x10000 ≤ c.toNat then ['-', '-']
  else ['-']

/-- `toClassName` (lines 14-16 of `scripts.js`); `toLowerCase` is the method of that name
of strings. -/
def toClassName (toLowerCase : String → String) (name : String) : String :=
  ⟨(toLowerCase name).data.flatMap dashed⟩

/-- A lowercase ASCII letter, a digit or a dash. -/
def isClassChar (c : Char) : Bool :=
  (97 ≤ c.toNat && c.toNat ≤ 122) || (48 ≤ c.toNat && c.toNat ≤ 57) || c = '-'

/-- Two characters that `toClassName` does not tell apart once lower-cased: equal, or
both outside the class of the pattern and of the same number of code units. -/
def sameKeyChar (a b : Char) : Prop :=
  a = b ∨ (inAlnumClass a = false ∧ inAlnumClass b = false ∧
    (0x10000 ≤ a.toNat ↔ 0x10000 ≤ b.toNat))

/-- Lower-casing of the ASCII letters alone, the part of `toLowerCase` that can produce
or change a character of the class of the pattern, apart from the Kelvin sign and the
dotted capital I. -/
def asciiLowerCase (s : String) : String :=
  ⟨s.data.map Char.toLower⟩

/-! ## Theorems -/

/-! ### Ordinal labels -/

/-! ### Block dispatch -/

theorem mem_addTokens (t : String) (tokens cl : List String) :
    t ∈ addTokens cl tokens ↔ t ∈ cl ∨ t ∈ tokens := by
  unfold addTokens
  induction tokens generalizing cl with
  | nil => simp
  | cons x xs ih =>
    rw [List.foldl_cons, ih]
    by_cases hx : x ∈ cl
    · simp only [hx, if_true, List.mem_cons]
      constructor
      · rintro (h | h)
        · exact Or.inl h
        · exact Or.inr (Or.inr h)
      · rintro (h | h | h)
        · exact Or.inl h
        · exact Or.inl (h ▸ hx)
        · exact Or.inr h
    · simp only [hx, if_false, List.mem_append, List.mem_singleton, List.mem_cons]
      tauto

theorem classListAdd_valid (cl tokens : List String)
    (h : ∀ t ∈ tokens, validToken t = true) :
    classListAdd cl tokens = .ok (addTokens cl tokens) := by
  unfold classListAdd
  have h1 : tokens.any (fun t => t == "") = false := by
    rw [List.any_eq_false]
    intro t ht
    have := h t ht
    simp [validToken] at this
    simp [this.1]
  have h2 : tokens.any (fun t => t.data.any isAsciiWhitespace) = false := by
    rw [List.any_eq_false]
    intro t ht
    have := h t ht
    simp only [validToken, Bool.and_eq_true, Bool.not_eq_true'] at this
    simp [this.2]
  simp [h1, h2]

theorem startsWith_optionName (b : String) (opts : List String) :
    startsWith (optionName b opts) (b ++ "-") = true := by
  simp [startsWith, optionName, String.data_append]

theorem splitAfter_optionName (b : String) (opts : List String) (hne : opts ≠ [])
    (hdash : ∀ o ∈ opts, '-' ∉ o.data) :
    splitAfter (optionName b opts) (b.length + 1) = opts := by
  have hdrop : (b.data ++ '-' :: List.intercalate ['-'] (opts.map String.data)).drop
      (b.length + 1) = List.intercalate ['-'] (opts.map String.data) := by
    have : b.length = b.data.length := rfl
    rw [this, ← List.drop_drop, List.drop_left]
    rfl
  unfold splitAfter optionName
  simp only [hdrop]
  rw [List.splitOn_intercalate]
  · simp [List.map_map, Function.comp_def]
  · intro l hl
    obtain ⟨o, ho, rfl⟩ := List.mem_map.1 hl
    exact hdash o ho
  · simpa using hne

theorem applyOption_optionName (b : String) (opts cl : List String)
    (hb : validToken b = true) (hne : opts ≠ [])
    (hopts : ∀ o ∈ opts, validToken o = true ∧ '-' ∉ o.data) :
    applyOption b { classList := cl, blockName := optionName b opts } =
      .ok { classList := addTokens (addTokens cl [b]) opts, blockName := b } := by
  unfold applyOption
  simp only [startsWith_optionName, if_true]
  rw [splitAfter_optionName b opts hne (fun o ho => (hopts o ho).2)]
  rw [classListAdd_valid cl [b] (by simpa using hb)]
  simp only
  rw [classListAdd_valid _ opts (fun o ho => (hopts o ho).1)]

theorem decorateBlockWith_optionName (b : String) (opts rest : List String)
    (hb : validToken b = true) (hne : opts ≠ [])
    (hopts : ∀ o ∈ opts, validToken o = true ∧ '-' ∉ o.data) :
    decorateBlockWith [b] (optionName b opts :: rest) =
      { classList := addTokens (addTokens (addTokens (optionName b opts :: rest) [b]) opts)
          ["block"],
        sectionClass := optionName b opts ++ "-container",
        result := .ok b } := by
  unfold decorateBlockWith
  simp only [List.foldlM_cons, List.foldlM_nil, applyOption_optionName b opts _ hb hne hopts,
    bind, Except.bind, pure, Except.pure]
  rw [classListAdd_valid _ ["block"] (by decide)]

theorem foldlM_applyOption_noPrefix (registry : List String) (st : Dispatch)
    (h : ∀ b ∈ registry, startsWith st.blockName (b ++ "-") = false) :
    registry.foldlM (fun st b => applyOption b st) st = .ok st := by
  induction registry with
  | nil => rfl
  | cons b bs ih =>
    have hb : applyOption b st = .ok st := by
      unfold applyOption
      simp [h b (List.mem_cons_self _ _)]
    rw [List.foldlM_cons, hb]
    exact ih (fun b' hb' => h b' (List.mem_cons_of_mem _ hb'))

theorem decorateBlockWith_noPrefix (registry : List String) (first : String)
    (rest : List String) (h : ∀ b ∈ registry, startsWith first (b ++ "-") = false) :
    decorateBlockWith registry (first :: rest) =
      { classList := addTokens (first :: rest) ["block"],
        sectionClass := first ++ "-container",
        result := .ok first } := by
  unfold decorateBlockWith
  simp only [foldlM_applyOption_noPrefix registry ⟨first :: rest, first⟩ h]
  rw [classListAdd_valid _ ["block"] (by decide)]

/-- An option-bearing name with an empty option, such as `checker-board-`, makes
`classList.add` raise `SyntaxError` after the base type has been added: the callback ends
before the class `block` is added and before anything is requested. -/
theorem decorateBlock_empty_option :
    (decorateBlock ["checker-board-"]).result = .error .syntaxError ∧
      (decorateBlock ["checker-board-"]).classList = ["checker-board-", "checker-board"] ∧
      (decorateBlock ["checker-board-a--b"]).result = .error .syntaxError :=
  ⟨rfl, rfl, rfl⟩

theorem decorateBlocks_single (registry : List String) (importModule : String → ImportResult)
    (page : PageState) (classes : List String) (blockName : String)
    (h : (decorateBlockWith registry classes).result = .ok blockName) :
    decorateBlocks registry importModule page [classes] =
      ({ links := loadCSS (stylePath blockName) page.links,
         moduleImports := page.moduleImports ++ [modulePath blockName],
         console := page.console ++
           settleImport (importModule (modulePath blockName)) blockName },
       [decorateBlockWith registry classes]) := by
  simp [decorateBlocks, decorateBlocksStep, h]

/-- C2: a block whose first class is `b-o1-…-on`, with `b` an entry of `blocksWithOptions`
and `o1 … on` class tokens without a dash, is dispatched to the module
`/express/blocks/b/b.js` and the stylesheet `/express/blocks/b/b.css`, and its class list
afterwards is the original one extended by `b`, `o1 … on` and `block`; with the registry
`foo`, the block `foo-bar-baz` loads the handler of `foo` and gets the classes `foo`, `bar`
and `baz`; a first class that does not start with a registered type followed by a dash is
used unchanged as the block name and only `block` is added. -/
theorem decorateBlocks_options_split :
    (∀ b ∈ blocksWithOptions, ∀ (opts rest : List String)
        (importModule : String → ImportResult) (page : PageState),
        opts ≠ [] → (∀ o ∈ opts, validToken o = true ∧ '-' ∉ o.data) →
        ∃ run,
          decorateBlocks blocksWithOptions importModule page [optionName b opts :: rest] =
            ({ links := loadCSS ("/express/blocks/" ++ b ++ "/" ++ b ++ ".css") page.links,
               moduleImports := page.moduleImports ++ ["/express/blocks/" ++ b ++ "/" ++ b ++ ".js"],
               console := page.console ++
                 settleImport (importModule (modulePath b)) b }, [run]) ∧
          run.result = .ok b ∧
          run.classList =
            addTokens (addTokens (addTokens (optionName b opts :: rest) [b]) opts) ["block"] ∧
          b ∈ run.classList ∧ (∀ o ∈ opts, o ∈ run.classList) ∧ "block" ∈ run.classList) ∧
    (optionName "foo" ["bar", "baz"] = "foo-bar-baz" ∧
      ∀ (importModule : String → ImportResult),
        ∃ run,
          decorateBlocks ["foo"] importModule ⟨[], [], []⟩ [["foo-bar-baz"]] =
            ({ links := ["/express/blocks/foo/foo.css"],
               moduleImports := ["/express/blocks/foo/foo.js"],
               console := settleImport (importModule "/express/blocks/foo/foo.js") "foo" },
             [run]) ∧
          run.result = .ok "foo" ∧
          run.classList = ["foo-bar-baz", "foo", "bar", "baz", "block"]) ∧
    (∀ (registry : List String) (first : String) (rest : List String)
        (importModule : String → ImportResult) (page : PageState),
        (∀ b ∈ registry, startsWith first (b ++ "-") = false) →
        ∃ run,
          decorateBlocks registry importModule page [first :: rest] =
            ({ links := loadCSS (stylePath first) page.links,
               moduleImports := page.moduleImports ++ [modulePath first],
               console := page.console ++
                 settleImport (importModule (modulePath first)) first }, [run]) ∧
          run.result = .ok first ∧
          run.classList = addTokens (first :: rest) ["block"]) := by
  refine ⟨?_, ⟨by decide, ?_⟩, ?_⟩
  · intro b hb opts rest importModule page hne hopts
    have hb' : b = "checker-board" := by simpa [blocksWithOptions] using hb
    subst hb'
    have hrun := decorateBlockWith_optionName "checker-board" opts rest (by decide) hne hopts
    refine ⟨decorateBlockWith blocksWithOptions (optionName "checker-board" opts :: rest),
      ?_, ?_, ?_, ?_, ?_, ?_⟩
    · exact decorateBlocks_single _ _ _ _ _ (by rw [blocksWithOptions, hrun])
    · rw [blocksWithOptions, hrun]
    · rw [blocksWithOptions, hrun]
    · rw [blocksWithOptions, hrun]
      simp [mem_addTokens]
    · intro o ho
      rw [blocksWithOptions, hrun]
      simp [mem_addTokens, ho]
    · rw [blocksWithOptions, hrun]
      simp [mem_addTokens]
  · intro importModule
    have hrun := decorateBlockWith_optionName "foo" ["bar", "baz"] [] (by decide)
      (by decide) (by decide)
    have hname : optionName "foo" ["bar", "baz"] = "foo-bar-baz" := by decide
    rw [hname] at hrun
    refine ⟨decorateBlockWith ["foo"] ["foo-bar-baz"], ?_, ?_, ?_⟩
    · rw [decorateBlocks_single ["foo"] importModule ⟨[], [], []⟩ ["foo-bar-baz"] "foo"
        (by rw [hrun])]
      have h1 : stylePath "foo" = "/express/blocks/foo/foo.css" := by decide
      have h2 : modulePath "foo" = "/express/blocks/foo/foo.js" := by decide
      simp [h1, h2, loadCSS]
    · rw [hrun]
    · rw [hrun]
      decide
  · intro registry first rest importModule page h
    have hrun := decorateBlockWith_noPrefix registry first rest h
    refine ⟨decorateBlockWith registry (first :: rest), ?_, ?_, ?_⟩
    · exact decorateBlocks_single _ _ _ _ _ (by rw [hrun])
    · rw [hrun]
    · rw [hrun]

theorem decorateBlocks_options_split_witness :
    ∃ run,
      decorateBlocks blocksWithOptions (fun _ => .rejected) ⟨[], [], []⟩
          [["checker-board-dark-wide", "hero"]] =
        (⟨["/express/blocks/checker-board/checker-board.css"],
          ["/express/blocks/checker-board/checker-board.js"], [.failedToLoadModule]⟩, [run]) ∧
      run.result = .ok "checker-board" ∧
      run.classList = ["checker-board-dark-wide", "hero", "checker-board", "dark", "wide", "block"] := by
  obtain ⟨run, h1, h2, h3, -⟩ :=
    decorateBlocks_options_split.1 "checker-board" (by decide) ["dark", "wide"] ["hero"]
      (fun _ => .rejected) ⟨[], [], []⟩ (by decide) (by decide)
  have hn : optionName "checker-board" ["dark", "wide"] = "checker-board-dark-wide" := by decide
  rw [hn] at h1 h3
  refine ⟨run, ?_, h2, ?_⟩
  · rw [h1]
    have : loadCSS ("/express/blocks/" ++ "checker-board" ++ "/" ++ "checker-board" ++ ".css") [] =
        ["/express/blocks/checker-board/checker-board.css"] := by decide
    simp only [this]
    have h2 : ("/express/blocks/" ++ "checker-board" ++ "/" ++ "checker-board" ++ ".js") =
        "/express/blocks/checker-board/checker-board.js" := by decide
    simp [h2, settleImport]
  · rw [h3]
    decide

/-! ### Variant selection -/

theorem hits_lt_length (vs : List Variant) (r : ℚ) (i : Nat) (h : hits vs r i) :
    i < vs.length := by
  unfold hits at h
  by_contra hlt
  rw [List.getElem?_eq_none (by omega)] at h
  exact h

theorem cumTraffic_length (vs : List Variant) : cumTraffic vs vs.length = totalTraffic vs := by
  simp [cumTraffic, totalTraffic]

theorem cumTraffic_snoc (vs : List Variant) (e : Variant) (i : Nat) (h : i ≤ vs.length) :
    cumTraffic (vs ++ [e]) i = cumTraffic vs i := by
  simp [cumTraffic, List.take_append_of_le_length h]

theorem totalTraffic_snoc (vs : List Variant) (e : Variant) :
    totalTraffic (vs ++ [e]) = totalTraffic vs + e.traffic := by
  simp [totalTraffic]

theorem hits_snoc_lt (vs : List Variant) (e : Variant) (r : ℚ) (i : Nat)
    (h : i < vs.length) : hits (vs ++ [e]) r i ↔ hits vs r i := by
  unfold hits
  rw [List.getElem?_append_left h, cumTraffic_snoc vs e i (le_of_lt h)]

theorem hits_snoc_length (vs : List Variant) (e : Variant) (r : ℚ) :
    hits (vs ++ [e]) r vs.length ↔ totalTraffic vs ≤ r ∧ r < totalTraffic vs + e.traffic := by
  unfold hits
  rw [cumTraffic_snoc vs e vs.length le_rfl, cumTraffic_length]
  simp

theorem foldl_selectStep_fst (vs : List Variant) (r : ℚ) (u : String) :
    (vs.foldl selectStep (r, u)).1 = r - totalTraffic vs := by
  induction vs using List.reverseRecOn with
  | nil => simp [totalTraffic]
  | append_singleton vs e ih =>
    rw [List.foldl_append, List.foldl_cons, List.foldl_nil, totalTraffic_snoc]
    simp only [selectStep, ih]
    ring

theorem foldl_pickStep_fst (vs : List Variant) (r : ℚ) :
    (vs.foldl pickStep (r, 0, none)).1 = r - totalTraffic vs ∧
      (vs.foldl pickStep (r, 0, none)).2.1 = vs.length := by
  induction vs using List.reverseRecOn with
  | nil => simp [totalTraffic]
  | append_singleton vs e ih =>
    rw [List.foldl_append, List.foldl_cons, List.foldl_nil, totalTraffic_snoc]
    simp only [pickStep, ih.1, ih.2, List.length_append, List.length_singleton]
    constructor
    · ring
    · trivial

theorem selectVariant_snoc (vs : List Variant) (e : Variant) (r : ℚ) :
    selectVariant (vs ++ [e]) r =
      if totalTraffic vs ≤ r ∧ r < totalTraffic vs + e.traffic then e.url
      else selectVariant vs r := by
  unfold selectVariant
  rw [List.foldl_append, List.foldl_cons, List.foldl_nil]
  simp only [selectStep, foldl_selectStep_fst]
  have : (0 ≤ r - totalTraffic vs ∧ r - totalTraffic vs < e.traffic) ↔
      (totalTraffic vs ≤ r ∧ r < totalTraffic vs + e.traffic) := by
    constructor <;> rintro ⟨h1, h2⟩ <;> constructor <;> linarith
  simp only [this]

theorem pickedIndex_snoc (vs : List Variant) (e : Variant) (r : ℚ) :
    pickedIndex (vs ++ [e]) r =
      if totalTraffic vs ≤ r ∧ r < totalTraffic vs + e.traffic then some vs.length
      else pickedIndex vs r := by
  unfold pickedIndex
  rw [List.foldl_append, List.foldl_cons, List.foldl_nil]
  simp only [pickStep, (foldl_pickStep_fst vs r).1, (foldl_pickStep_fst vs r).2]
  have : (0 ≤ r - totalTraffic vs ∧ r - totalTraffic vs < e.traffic) ↔
      (totalTraffic vs ≤ r ∧ r < totalTraffic vs + e.traffic) := by
    constructor <;> rintro ⟨h1, h2⟩ <;> constructor <;> linarith
  simp only [this]

theorem hits_snoc (vs : List Variant) (e : Variant) (r : ℚ) (j : Nat) :
    hits (vs ++ [e]) r j ↔
      hits vs r j ∨ (j = vs.length ∧ totalTraffic vs ≤ r ∧ r < totalTraffic vs + e.traffic) := by
  rcases Nat.lt_trichotomy j vs.length with hlt | heq | hgt
  · rw [hits_snoc_lt vs e r j hlt]
    constructor
    · exact Or.inl
    · rintro (h | ⟨h, _⟩)
      · exact h
      · omega
  · subst heq
    rw [hits_snoc_length]
    constructor
    · exact fun h => Or.inr ⟨rfl, h⟩
    · rintro (h | ⟨_, h⟩)
      · exact absurd (hits_lt_length vs r _ h) (lt_irrefl _)
      · exact h
  · constructor
    · intro h
      have := hits_lt_length _ r j h
      simp at this
      omega
    · rintro (h | ⟨h, _⟩)
      · have := hits_lt_length _ r j h
        omega
      · omega

theorem pickedIndex_eq_none_iff (vs : List Variant) (r : ℚ) :
    pickedIndex vs r = none ↔ ∀ j, ¬ hits vs r j := by
  induction vs using List.reverseRecOn with
  | nil =>
    simp [pickedIndex, hits]
  | append_singleton vs e ih =>
    rw [pickedIndex_snoc]
    by_cases H : totalTraffic vs ≤ r ∧ r < totalTraffic vs + e.traffic
    · simp only [H, and_self, if_true]
      constructor
      · intro h
        cases h
      · intro h
        exact absurd ((hits_snoc vs e r vs.length).2 (Or.inr ⟨rfl, H⟩)) (h _)
    · simp only [H, if_false, ih, hits_snoc, and_false, or_false]

theorem pickedIndex_eq_some_iff (vs : List Variant) (r : ℚ) (i : Nat) :
    pickedIndex vs r = some i ↔ hits vs r i ∧ ∀ j, i < j → ¬ hits vs r j := by
  induction vs using List.reverseRecOn with
  | nil =>
    simp [pickedIndex, hits]
  | append_singleton vs e ih =>
    rw [pickedIndex_snoc]
    by_cases H : totalTraffic vs ≤ r ∧ r < totalTraffic vs + e.traffic
    · simp only [H, and_self, if_true, Option.some.injEq]
      constructor
      · intro h
        subst h
        refine ⟨(hits_snoc vs e r vs.length).2 (Or.inr ⟨rfl, H⟩), ?_⟩
        intro j hj hh
        have := hits_lt_length _ r j hh
        simp at this
        omega
      · rintro ⟨h1, h2⟩
        have hlen := hits_lt_length _ r i h1
        simp at hlen
        by_contra hne
        have hlt : i < vs.length := by omega
        exact h2 vs.length hlt ((hits_snoc vs e r vs.length).2 (Or.inr ⟨rfl, H⟩))
    · simp only [H, if_false, ih, hits_snoc, and_false, or_false]

theorem selectVariant_eq_picked (vs : List Variant) (r : ℚ) :
    selectVariant vs r =
      match pickedIndex vs r with
      | some i => ((vs[i]?).map Variant.url).getD ""
      | none => "" := by
  induction vs using List.reverseRecOn with
  | nil => simp [selectVariant, pickedIndex]
  | append_singleton vs e ih =>
    rw [selectVariant_snoc, pickedIndex_snoc]
    by_cases H : totalTraffic vs ≤ r ∧ r < totalTraffic vs + e.traffic
    · simp [H]
    · simp only [H, if_false, ih]
      cases hp : pickedIndex vs r with
      | none => rfl
      | some i =>
        have hlt := hits_lt_length vs r i ((pickedIndex_eq_some_iff vs r i).1 hp).1
        simp only [List.getElem?_append_left hlt]

theorem cumTraffic_succ (vs : List Variant) (i : Nat) (e : Variant) (h : vs[i]? = some e) :
    cumTraffic vs (i + 1) = cumTraffic vs i + e.traffic := by
  simp [cumTraffic, List.take_succ, h]

theorem cumTraffic_le_succ (vs : List Variant) (hnn : ∀ e ∈ vs, 0 ≤ e.traffic) (i : Nat) :
    cumTraffic vs i ≤ cumTraffic vs (i + 1) := by
  cases h : vs[i]? with
  | none => simp [cumTraffic, List.take_succ, h]
  | some e =>
    rw [cumTraffic_succ vs i e h]
    have := hnn e (List.getElem?_mem h)
    linarith

theorem cumTraffic_mono (vs : List Variant) (hnn : ∀ e ∈ vs, 0 ≤ e.traffic) (i j : Nat)
    (hij : i ≤ j) : cumTraffic vs i ≤ cumTraffic vs j := by
  induction j, hij using Nat.le_induction with
  | base => exact le_rfl
  | succ j _ ih => exact le_trans ih (cumTraffic_le_succ vs hnn j)

theorem cumTraffic_nonneg (vs : List Variant) (hnn : ∀ e ∈ vs, 0 ≤ e.traffic) (i : Nat) :
    0 ≤ cumTraffic vs i := by
  have := cumTraffic_mono vs hnn 0 i (Nat.zero_le _)
  simpa [cumTraffic] using this

theorem cumTraffic_le_total (vs : List Variant) (hnn : ∀ e ∈ vs, 0 ≤ e.traffic) (i : Nat) :
    cumTraffic vs i ≤ totalTraffic vs := by
  rcases Nat.le_total i vs.length with h | h
  · rw [← cumTraffic_length]
    exact cumTraffic_mono vs hnn i vs.length h
  · simp [cumTraffic, totalTraffic, List.take_of_length_le h]

theorem hits_unique (vs : List Variant) (hnn : ∀ e ∈ vs, 0 ≤ e.traffic) (r : ℚ) (i j : Nat)
    (hi : hits vs r i) (hj : hits vs r j) : i = j := by
  have key : ∀ a b, hits vs r a → hits vs r b → ¬ a < b := by
    intro a b ha hb hab
    unfold hits at ha hb
    cases hea : vs[a]? with
    | none => simp [hea] at ha
    | some ea =>
      cases heb : vs[b]? with
      | none => simp [heb] at hb
      | some eb =>
        simp only [hea] at ha
        simp only [heb] at hb
        have h1 := cumTraffic_succ vs a ea hea
        have h2 := cumTraffic_mono vs hnn (a + 1) b hab
        linarith [ha.2, hb.1]
  rcases Nat.lt_trichotomy i j with h | h | h
  · exact absurd h (key i j hi hj)
  · exact h
  · exact absurd h (key j i hj hi)

theorem exists_hits_of_lt_total (vs : List Variant) (r : ℚ) (h0 : 0 ≤ r)
    (ht : r < totalTraffic vs) : ∃ i, hits vs r i := by
  induction vs using List.reverseRecOn with
  | nil =>
    simp [totalTraffic] at ht
    linarith
  | append_singleton vs e ih =>
    rw [totalTraffic_snoc] at ht
    by_cases hlt : r < totalTraffic vs
    · obtain ⟨i, hi⟩ := ih hlt
      exact ⟨i, (hits_snoc vs e r i).2 (Or.inl hi)⟩
    · exact ⟨vs.length, (hits_snoc vs e r vs.length).2 (Or.inr ⟨rfl, le_of_not_lt hlt, ht⟩)⟩

theorem not_hits_of_total_le (vs : List Variant) (hnn : ∀ e ∈ vs, 0 ≤ e.traffic) (r : ℚ)
    (ht : totalTraffic vs ≤ r) (i : Nat) : ¬ hits vs r i := by
  intro h
  unfold hits at h
  cases he : vs[i]? with
  | none => simp [he] at h
  | some e =>
    simp only [he] at h
    have h1 := cumTraffic_succ vs i e he
    have h2 := cumTraffic_le_total vs hnn (i + 1)
    linarith [h.2]

/-- Over exact rationals, the URL left in `selectedUrl` by the selection
loop is that of the last variant whose cumulative traffic interval contains the sample,
and it stays empty when no interval contains the sample; when all traffic shares are
non-negative, at most one interval contains the sample, so the selected variant is also
the first one whose interval contains it. -/
theorem selectVariant_last_hit (vs : List Variant) (r : ℚ) :
    (∀ i e, vs[i]? = some e → hits vs r i → (∀ j, i < j → ¬ hits vs r j) →
        selectVariant vs r = e.url) ∧
    ((∀ j, ¬ hits vs r j) → selectVariant vs r = "") ∧
    ((∀ e ∈ vs, 0 ≤ e.traffic) → ∀ i e, vs[i]? = some e → hits vs r i →
        (∀ j, hits vs r j → j = i) ∧ selectVariant vs r = e.url) := by
  have hlast : ∀ i e, vs[i]? = some e → hits vs r i → (∀ j, i < j → ¬ hits vs r j) →
      selectVariant vs r = e.url := by
    intro i e he hi hlater
    rw [selectVariant_eq_picked, (pickedIndex_eq_some_iff vs r i).2 ⟨hi, hlater⟩]
    simp [he]
  refine ⟨hlast, ?_, ?_⟩
  · intro hnone
    rw [selectVariant_eq_picked, (pickedIndex_eq_none_iff vs r).2 hnone]
  · intro hnn i e he hi
    refine ⟨fun j hj => hits_unique vs hnn r j i hj hi, ?_⟩
    apply hlast i e he hi
    intro j hij hj
    have := hits_unique vs hnn r j i hj hi
    omega

theorem selectVariant_last_hit_witness :
    selectVariant [⟨"/a", 1 / 2⟩, ⟨"/b", 1 / 4⟩] (5 / 8) = "/b" := by
  refine ((selectVariant_last_hit [⟨"/a", 1 / 2⟩, ⟨"/b", 1 / 4⟩] (5 / 8)).2.2 ?_
    1 ⟨"/b", 1 / 4⟩ rfl ?_).2
  · intro e he
    simp at he
    rcases he with rfl | rfl <;> norm_num
  · simp [hits, cumTraffic]
    norm_num

/-- C3: the claim fails on a negative percentage. With the traffic shares 1/2, -1/2 and 1/2 and the sample 1/4,
the first variant whose cumulative interval contains the sample is `/a`, at index 0, and
the loop selects `/c`. -/
theorem selectVariant_first_hit_counterexample :
    (0 : ℚ) ≤ 1 / 4 ∧ (1 / 4 : ℚ) < 1 ∧
    hits [⟨"/a", 1 / 2⟩, ⟨"/b", -1 / 2⟩, ⟨"/c", 1 / 2⟩] (1 / 4) 0 ∧
    ([⟨"/a", 1 / 2⟩, ⟨"/b", -1 / 2⟩, ⟨"/c", 1 / 2⟩] : List Variant)[0]? = some ⟨"/a", 1 / 2⟩ ∧
    selectVariant [⟨"/a", 1 / 2⟩, ⟨"/b", -1 / 2⟩, ⟨"/c", 1 / 2⟩] (1 / 4) = "/c" ∧
    selectVariant [⟨"/a", 1 / 2⟩, ⟨"/b", -1 / 2⟩, ⟨"/c", 1 / 2⟩] (1 / 4) ≠ "/a" := by
  have hsel : selectVariant [⟨"/a", 1 / 2⟩, ⟨"/b", -1 / 2⟩, ⟨"/c", 1 / 2⟩] (1 / 4) = "/c" := by
    simp [selectVariant, selectStep]
    norm_num
  refine ⟨by norm_num, by norm_num, ?_, rfl, hsel, ?_⟩
  · simp [hits, cumTraffic]
    norm_num
  · rw [hsel]
    decide

theorem hits_iff_of_getElem (vs : List Variant) (r : ℚ) (i : Nat) (e : Variant)
    (he : vs[i]? = some e) :
    hits vs r i ↔ cumTraffic vs i ≤ r ∧ r < cumTraffic vs i + e.traffic := by
  unfold hits
  rw [he]

theorem pickedIndex_eq_some_iff_hits (vs : List Variant) (hnn : ∀ e ∈ vs, 0 ≤ e.traffic)
    (r : ℚ) (i : Nat) : pickedIndex vs r = some i ↔ hits vs r i := by
  rw [pickedIndex_eq_some_iff]
  constructor
  · exact fun h => h.1
  · intro h
    refine ⟨h, fun j hij hj => ?_⟩
    have := hits_unique vs hnn r i j h hj
    omega

/-- C4: over exact rationals, for traffic shares that are non-negative and sum to at most
1, the samples of `[0, 1)` for which the selection loop picks variant `i` form the
half-open interval from the sum of the shares before `i` to that sum plus the share of
`i`, whose length is the share of `i`; the sample sets of two different variants are
disjoint; the samples for which no variant is picked form the interval from the sum of
all shares to 1, of length 1 minus that sum; and the URL the loop leaves in `selectedUrl`
is that of the picked variant, or empty when none is picked. -/
theorem selectVariant_proportional (vs : List Variant) (hnn : ∀ e ∈ vs, 0 ≤ e.traffic)
    (hsum : totalTraffic vs ≤ 1) :
    (∀ i e, vs[i]? = some e →
      {r : ℚ | 0 ≤ r ∧ r < 1 ∧ pickedIndex vs r = some i} =
          Set.Ico (cumTraffic vs i) (cumTraffic vs i + e.traffic) ∧
        (cumTraffic vs i + e.traffic) - cumTraffic vs i = e.traffic) ∧
    (∀ i j, i ≠ j →
      Disjoint {r : ℚ | 0 ≤ r ∧ r < 1 ∧ pickedIndex vs r = some i}
        {r : ℚ | 0 ≤ r ∧ r < 1 ∧ pickedIndex vs r = some j}) ∧
    {r : ℚ | 0 ≤ r ∧ r < 1 ∧ pickedIndex vs r = none} = Set.Ico (totalTraffic vs) 1 ∧
    (∀ r, selectVariant vs r =
      match pickedIndex vs r with
      | some i => ((vs[i]?).map Variant.url).getD ""
      | none => "") := by
  refine ⟨?_, ?_, ?_, selectVariant_eq_picked vs⟩
  · intro i e he
    refine ⟨?_, by ring⟩
    ext r
    simp only [Set.mem_setOf_eq, Set.mem_Ico, pickedIndex_eq_some_iff_hits vs hnn,
      hits_iff_of_getElem vs r i e he]
    constructor
    · rintro ⟨_, _, h⟩
      exact h
    · rintro ⟨h1, h2⟩
      have h3 := cumTraffic_nonneg vs hnn i
      have h4 := cumTraffic_succ vs i e he
      have h5 := cumTraffic_le_total vs hnn (i + 1)
      exact ⟨by linarith, by linarith, h1, h2⟩
  · intro i j hij
    rw [Set.disjoint_left]
    rintro r ⟨_, _, hi⟩ ⟨_, _, hj⟩
    rw [hi] at hj
    exact hij (Option.some.inj hj)
  · ext r
    simp only [Set.mem_setOf_eq, Set.mem_Ico, pickedIndex_eq_none_iff]
    constructor
    · rintro ⟨h0, h1, hno⟩
      refine ⟨?_, h1⟩
      by_contra hlt
      obtain ⟨i, hi⟩ := exists_hits_of_lt_total vs r h0 (lt_of_not_le hlt)
      exact hno i hi
    · rintro ⟨h1, h2⟩
      have h3 := cumTraffic_nonneg vs hnn vs.length
      rw [cumTraffic_length] at h3
      exact ⟨by linarith, h2, not_hits_of_total_le vs hnn r h1⟩

theorem selectVariant_proportional_witness :
    {r : ℚ | 0 ≤ r ∧ r < 1 ∧ pickedIndex [⟨"/a", 1 / 2⟩, ⟨"/b", 1 / 4⟩] r = some 1} =
        Set.Ico (cumTraffic [⟨"/a", 1 / 2⟩, ⟨"/b", 1 / 4⟩] 1)
          (cumTraffic [⟨"/a", 1 / 2⟩, ⟨"/b", 1 / 4⟩] 1 + 1 / 4) ∧
      {r : ℚ | 0 ≤ r ∧ r < 1 ∧ pickedIndex [⟨"/a", 1 / 2⟩, ⟨"/b", 1 / 4⟩] r = none} =
        Set.Ico (totalTraffic [⟨"/a", 1 / 2⟩, ⟨"/b", 1 / 4⟩]) 1 := by
  have hnn : ∀ e ∈ ([⟨"/a", 1 / 2⟩, ⟨"/b", 1 / 4⟩] : List Variant), 0 ≤ e.traffic := by
    intro e he
    simp at he
    rcases he with rfl | rfl <;> norm_num
  have hsum : totalTraffic [⟨"/a", 1 / 2⟩, ⟨"/b", 1 / 4⟩] ≤ 1 := by
    simp [totalTraffic]
    norm_num
  have h := selectVariant_proportional [⟨"/a", 1 / 2⟩, ⟨"/b", 1 / 4⟩] hnn hsum
  exact ⟨(h.1 1 ⟨"/b", 1 / 4⟩ rfl).1, h.2.2.1⟩

/-! ### Heading scaling -/

theorem convTag2FontSize_pos (t : Tag) : 0 < convTag2FontSize t := by
  cases t <;> norm_num [convTag2FontSize]

theorem convTag2LineHeight_pos (t : Tag) : 0 < convTag2LineHeight t := by
  cases t <;> norm_num [convTag2LineHeight]

theorem digitsValue_cast_nonneg (ds : List Char) : (0 : ℚ) ≤ (digitsValue ds : ℚ) :=
  Nat.cast_nonneg _

theorem lineHeightFloat_nonneg (s : String) (q : ℚ) (h : lineHeightFloat s = some q) :
    0 ≤ q := by
  unfold lineHeightFloat at h
  split at h
  · simp at h
  · simp only [Option.some.injEq] at h
    rw [← h]
    exact Nat.cast_nonneg _
  · split at h
    · simp only [Option.some.injEq] at h
      rw [← h]
      positivity
    · split at h <;> simp only [Option.some.injEq] at h <;> rw [← h] <;> positivity

theorem headerLines_nonneg (H : Nat) (lh : Option ℚ) (n : ℚ)
    (hlh : ∀ q, lh = some q → 0 ≤ q) (h : headerLines H lh = .fin n) : 0 ≤ n := by
  unfold headerLines at h
  cases lh with
  | none => simp at h
  | some q =>
    simp only at h
    by_cases hq : q = 0
    · simp only [hq, if_true] at h
      split at h <;> simp at h
    · simp only [hq, if_false, JsNum.fin.injEq] at h
      rw [← h]
      have h0 : 0 ≤ q := hlh q rfl
      have : (0 : ℚ) ≤ (H : ℚ) / q := div_nonneg (Nat.cast_nonneg _) h0
      exact_mod_cast Int.ceil_nonneg this

theorem scaleHeading_of_exceeds (h : Heading) (H : Nat) (hH : heightInt h.height = some H)
    (hex : exceedsMaxLines (headerLines H (lineHeightFloat h.lineHeight)) = true) :
    ∃ s : ℚ, 0 ≤ s ∧ s < 1 ∧
      scaleOf (headerLines H (lineHeightFloat h.lineHeight)) = .fin s ∧
      scaleHeading h =
        .ok { h with
          styleFontSize := some (.fin (convTag2FontSize h.tagName * s)),
          styleLineHeight := some (.fin (convTag2LineHeight h.tagName * s)) } := by
  cases hL : headerLines H (lineHeightFloat h.lineHeight) with
  | nan => simp [hL, exceedsMaxLines] at hex
  | inf =>
    refine ⟨0, le_rfl, by norm_num, by simp [scaleOf], ?_⟩
    unfold scaleHeading
    simp [hH, hL, scaleOf]
  | fin n =>
    rw [hL] at hex
    have h3 : maxLines < n := by simpa [exceedsMaxLines] using hex
    have hpos : (0 : ℚ) < n := lt_trans (by norm_num [maxLines]) h3
    refine ⟨maxLines / n, div_nonneg (by norm_num [maxLines]) hpos.le,
      (div_lt_one hpos).2 h3, by simp [scaleOf, ne_of_gt hpos], ?_⟩
    unfold scaleHeading
    simp only [hH, hL, scaleOf, ne_of_gt hpos, if_false, (div_lt_one hpos).2 h3, if_true]

theorem scaleHeading_of_not_exceeds (h : Heading) (H : Nat)
    (hH : heightInt h.height = some H)
    (hex : exceedsMaxLines (headerLines H (lineHeightFloat h.lineHeight)) = false) :
    scaleHeading h = .ok h := by
  cases hL : headerLines H (lineHeightFloat h.lineHeight) with
  | nan =>
    unfold scaleHeading
    simp [hH, hL, scaleOf]
  | inf => simp [hL, exceedsMaxLines] at hex
  | fin n =>
    rw [hL] at hex
    have h3 : ¬ maxLines < n := by simpa [exceedsMaxLines] using hex
    have hnn := headerLines_nonneg _ _ n (fun q hq => lineHeightFloat_nonneg _ q hq) hL
    unfold scaleHeading
    by_cases h0 : n = 0
    · simp [hH, hL, scaleOf, h0]
    · have hpos : (0 : ℚ) < n := lt_of_le_of_ne hnn (Ne.symm h0)
      have : ¬ maxLines / n < 1 := by
        rw [div_lt_one hpos]
        exact h3
      simp only [hH, hL, scaleOf, h0, if_false, this]

theorem scaleHeader_cons_ok (x x' : Heading) (xs : List Heading) (hsel : selected x = true)
    (hx : scaleHeading x = .ok x') :
    scaleHeader (x :: xs) = (x' :: (scaleHeader xs).1, (scaleHeader xs).2) := by
  rw [scaleHeader]
  simp only [hsel, if_true, hx]

theorem scaleHeader_cons_skip (x : Heading) (xs : List Heading) (hsel : ¬ selected x = true) :
    scaleHeader (x :: xs) = (x :: (scaleHeader xs).1, (scaleHeader xs).2) := by
  rw [scaleHeader]
  simp [hsel]

theorem scaleHeader_cons_error (x : Heading) (xs : List Heading) (e : DomError)
    (hsel : selected x = true) (hx : scaleHeading x = .error e) :
    scaleHeader (x :: xs) = (x :: xs, some e) := by
  rw [scaleHeader]
  simp only [hsel, if_true, hx]

theorem scaleHeader_reached (pre post : List Heading) (h : Heading)
    (hpre : ∀ x ∈ pre, selected x = true → (heightInt x.height).isSome = true) :
    ∃ pre', pre'.length = pre.length ∧
      (scaleHeader (pre ++ h :: post)).1 = pre' ++ (scaleHeader (h :: post)).1 ∧
      (scaleHeader (pre ++ h :: post)).2 = (scaleHeader (h :: post)).2 := by
  induction pre with
  | nil => exact ⟨[], rfl, rfl, rfl⟩
  | cons x xs ih =>
    obtain ⟨pre', hlen, h1, h2⟩ := ih (fun y hy => hpre y (List.mem_cons_of_mem _ hy))
    by_cases hsel : selected x = true
    · obtain ⟨H, hH⟩ := Option.isSome_iff_exists.1 (hpre x (List.mem_cons_self _ _) hsel)
      have hok : ∃ x', scaleHeading x = .ok x' := by
        cases hv : exceedsMaxLines (headerLines H (lineHeightFloat x.lineHeight)) with
        | false => exact ⟨x, scaleHeading_of_not_exceeds x H hH hv⟩
        | true =>
          obtain ⟨s, _, _, _, hs⟩ := scaleHeading_of_exceeds x H hH hv
          exact ⟨_, hs⟩
      obtain ⟨x', hx'⟩ := hok
      refine ⟨x' :: pre', by simp [hlen], ?_, ?_⟩
      · rw [List.cons_append, scaleHeader_cons_ok x x' _ hsel hx', h1]
        rfl
      · rw [List.cons_append, scaleHeader_cons_ok x x' _ hsel hx', h2]
    · refine ⟨x :: pre', by simp [hlen], ?_, ?_⟩
      · rw [List.cons_append, scaleHeader_cons_skip x _ hsel, h1]
        rfl
      · rw [List.cons_append, scaleHeader_cons_skip x _ hsel, h2]

theorem scaleHeader_at (pre post : List Heading) (h h' : Heading)
    (hpre : ∀ x ∈ pre, selected x = true → (heightInt x.height).isSome = true)
    (hh : (if selected h = true then scaleHeading h else .ok h) = .ok h') :
    (scaleHeader (pre ++ h :: post)).1[pre.length]? = some h' := by
  obtain ⟨pre', hlen, h1, -⟩ := scaleHeader_reached pre post h hpre
  rw [h1, List.getElem?_append_right (by omega), hlen, Nat.sub_self]
  by_cases hsel : selected h = true
  · simp only [hsel, if_true] at hh
    rw [scaleHeader_cons_ok h h' post hsel hh]
    simp
  · simp only [hsel, Bool.false_eq_true, if_false, Except.ok.injEq] at hh
    rw [scaleHeader_cons_skip h post hsel, hh]
    simp

theorem scaleHeading_of_lines (h : Heading) (H : Nat) (lh : ℚ)
    (hH : heightInt h.height = some H) (hlh : lineHeightFloat h.lineHeight = some lh)
    (hpos : 0 < lh) (h3 : 3 < ⌈(H : ℚ) / lh⌉) :
    scaleHeading h =
      .ok { h with
        styleFontSize :=
          some (.fin (convTag2FontSize h.tagName * 3 / (⌈(H : ℚ) / lh⌉ : ℤ))),
        styleLineHeight :=
          some (.fin (convTag2LineHeight h.tagName * 3 / (⌈(H : ℚ) / lh⌉ : ℤ))) } := by
  have hL : (3 : ℚ) < ((⌈(H : ℚ) / lh⌉ : ℤ) : ℚ) := by exact_mod_cast h3
  have hLpos : (0 : ℚ) < ((⌈(H : ℚ) / lh⌉ : ℤ) : ℚ) := by linarith
  have hlt : maxLines / ((⌈(H : ℚ) / lh⌉ : ℤ) : ℚ) < 1 := by
    rw [div_lt_one hLpos]
    exact hL
  unfold scaleHeading
  simp only [hH, hlh, headerLines, ne_of_gt hpos, if_false, scaleOf, ne_of_gt hLpos, hlt,
    if_true]
  simp only [maxLines, mul_div_assoc]

/-- C5 (as amended): let no selected heading before `h` in document order have a computed
height without digits, and let `h` be a heading of level 1 to 5 in a columns block whose
height reads as the integer `H` and whose line height is read by the pattern as `lh > 0`,
with line count `L = ceil(H / lh)` greater than 3. Then `scaleHeader` sets the font size
of `h` to `convTag2FontSize[tag] * 3 / L` and its line height to
`convTag2LineHeight[tag] * 3 / L`, in pixels and over exact rationals, both strictly below
the table values, which are 60 and 63.6 for H1, 45 and 48.6 for H2, 36 and 39.96 for H3,
and 28 and 31.92 for H4 and H5. -/
theorem scaleHeader_scaled (pre post : List Heading) (h : Heading) (H : Nat) (lh : ℚ)
    (hpre : ∀ x ∈ pre, selected x = true → (heightInt x.height).isSome = true)
    (hsel : selected h = true) (hH : heightInt h.height = some H)
    (hlh : lineHeightFloat h.lineHeight = some lh) (hpos : 0 < lh)
    (h3 : 3 < ⌈(H : ℚ) / lh⌉) :
    (∃ h', (scaleHeader (pre ++ h :: post)).1[pre.length]? = some h' ∧
      h'.styleFontSize =
        some (.fin (convTag2FontSize h.tagName * 3 / (⌈(H : ℚ) / lh⌉ : ℤ))) ∧
      h'.styleLineHeight =
        some (.fin (convTag2LineHeight h.tagName * 3 / (⌈(H : ℚ) / lh⌉ : ℤ))) ∧
      convTag2FontSize h.tagName * 3 / (⌈(H : ℚ) / lh⌉ : ℤ) < convTag2FontSize h.tagName ∧
      convTag2LineHeight h.tagName * 3 / (⌈(H : ℚ) / lh⌉ : ℤ) <
        convTag2LineHeight h.tagName) ∧
    (convTag2FontSize .H1 = 60 ∧ convTag2LineHeight .H1 = 318 / 5 ∧
      convTag2FontSize .H2 = 45 ∧ convTag2LineHeight .H2 = 243 / 5 ∧
      convTag2FontSize .H3 = 36 ∧ convTag2LineHeight .H3 = 999 / 25 ∧
      convTag2FontSize .H4 = 28 ∧ convTag2LineHeight .H4 = 798 / 25 ∧
      convTag2FontSize .H5 = 28 ∧ convTag2LineHeight .H5 = 798 / 25) := by
  have hL : (3 : ℚ) < ((⌈(H : ℚ) / lh⌉ : ℤ) : ℚ) := by exact_mod_cast h3
  have hLpos : (0 : ℚ) < ((⌈(H : ℚ) / lh⌉ : ℤ) : ℚ) := by linarith
  have hs := scaleHeading_of_lines h H lh hH hlh hpos h3
  have hat := scaleHeader_at pre post h
    { h with
      styleFontSize :=
        some (.fin (convTag2FontSize h.tagName * 3 / (⌈(H : ℚ) / lh⌉ : ℤ))),
      styleLineHeight :=
        some (.fin (convTag2LineHeight h.tagName * 3 / (⌈(H : ℚ) / lh⌉ : ℤ))) }
    hpre (by simp only [hsel, if_true, hs])
  refine ⟨⟨_, hat, rfl, rfl, ?_, ?_⟩, ?_⟩
  · rw [div_lt_iff₀ hLpos]
    nlinarith [convTag2FontSize_pos h.tagName]
  · rw [div_lt_iff₀ hLpos]
    nlinarith [convTag2LineHeight_pos h.tagName]
  · norm_num [convTag2FontSize, convTag2LineHeight]

theorem lineHeightFloat_sample : lineHeightFloat "48.6px" = some (243 / 5) := by
  have hm : matchLineHeight "48.6px".data = some (['4', '8'], some ('.', ['6'])) := by
    decide
  have h48 : digitsValue ['4', '8'] = 48 := by decide
  have h6 : digitsValue ['6'] = 6 := by decide
  simp only [lineHeightFloat, hm, h48, h6]
  norm_num

theorem scaleHeader_scaled_witness :
    ∃ h', (scaleHeader ([⟨.H1, false, "auto", "normal", none, none⟩] ++
        ⟨.H2, true, "230px", "48.6px", none, none⟩ :: [])).1[1]? = some h' ∧
      h'.styleFontSize = some (.fin (convTag2FontSize .H2 * 3 / 5)) ∧
      h'.styleLineHeight = some (.fin (convTag2LineHeight .H2 * 3 / 5)) := by
  have hceil : ⌈((230 : Nat) : ℚ) / (243 / 5)⌉ = 5 := by
    rw [Int.ceil_eq_iff]
    norm_num
  obtain ⟨⟨h', h1, h2, h3, -⟩, -⟩ :=
    scaleHeader_scaled [⟨.H1, false, "auto", "normal", none, none⟩] []
      ⟨.H2, true, "230px", "48.6px", none, none⟩ 230 (243 / 5) (by decide) (by decide)
      (by decide) lineHeightFloat_sample (by norm_num) (by rw [hceil]; norm_num)
  rw [hceil] at h2 h3
  exact ⟨h', h1, by simpa using h2, by simpa using h3⟩

/-- C5 (as stated) fails: the first heading has the computed height `auto`, reading it
raises `TypeError` and ends the loop, and the second heading, of 230 pixels at a line
height of 48.6 pixels and so of 5 lines, keeps its sizes unset. -/
theorem scaleHeader_scaled_counterexample :
    scaleHeader [⟨.H1, true, "auto", "63.6px", none, none⟩,
        ⟨.H2, true, "230px", "48.6px", none, none⟩] =
      ([⟨.H1, true, "auto", "63.6px", none, none⟩,
        ⟨.H2, true, "230px", "48.6px", none, none⟩], some .typeError) ∧
    selected ⟨.H2, true, "230px", "48.6px", none, none⟩ = true ∧
    heightInt "230px" = some 230 ∧ lineHeightFloat "48.6px" = some (243 / 5) ∧
    (3 : ℤ) < ⌈((230 : Nat) : ℚ) / (243 / 5)⌉ := by
  have hceil : ⌈((230 : Nat) : ℚ) / (243 / 5)⌉ = 5 := by
    rw [Int.ceil_eq_iff]
    norm_num
  refine ⟨?_, by decide, by decide, lineHeightFloat_sample, by rw [hceil]; norm_num⟩
  exact scaleHeader_cons_error _ _ .typeError (by decide) (by
    unfold scaleHeading
    have : heightInt "auto" = none := by decide
    simp only [this])

/-! ### Block dispatch: rejected module loads -/

theorem block_mem_of_result_ok (registry classes : List String) (blockName : String)
    (h : (decorateBlockWith registry classes).result = .ok blockName) :
    "block" ∈ (decorateBlockWith registry classes).classList := by
  unfold decorateBlockWith at h ⊢
  cases classes with
  | nil => simp at h
  | cons first rest =>
    simp only at h ⊢
    cases hf : List.foldlM (fun st b => applyOption b st)
        ({ classList := first :: rest, blockName := first } : Dispatch) registry with
    | error e =>
      rw [hf] at h
      simp at h
    | ok st =>
      rw [hf] at h
      simp only at h ⊢
      rw [classListAdd_valid _ ["block"] (by decide)] at h ⊢
      simp [mem_addTokens]

theorem mem_loadCSS (href x : String) (links : List String) :
    x ∈ loadCSS href links ↔ x ∈ links ∨ x = href := by
  unfold loadCSS
  by_cases h : href ∈ links
  · simp only [h, if_true]
    constructor
    · exact Or.inl
    · rintro (hx | hx)
      · exact hx
      · exact hx ▸ h
  · simp [h]

theorem decorateBlocksStep_ok (registry : List String) (importModule : String → ImportResult)
    (acc : PageState × List BlockRun) (c : List String) (name : String)
    (h : (decorateBlockWith registry c).result = .ok name) :
    decorateBlocksStep registry importModule acc c =
      ({ links := loadCSS (stylePath name) acc.1.links,
         moduleImports := acc.1.moduleImports ++ [modulePath name],
         console := acc.1.console ++ settleImport (importModule (modulePath name)) name },
       acc.2 ++ [decorateBlockWith registry c]) := by
  simp only [decorateBlocksStep, h]

theorem decorateBlocksStep_error (registry : List String)
    (importModule : String → ImportResult) (acc : PageState × List BlockRun)
    (c : List String) (e : DomError) (h : (decorateBlockWith registry c).result = .error e) :
    decorateBlocksStep registry importModule acc c =
      (acc.1, acc.2 ++ [decorateBlockWith registry c]) := by
  simp only [decorateBlocksStep, h]

theorem decorateBlocksStep_mono (registry : List String)
    (importModule : String → ImportResult) (acc : PageState × List BlockRun)
    (c : List String) :
    (decorateBlocksStep registry importModule acc c).2 =
        acc.2 ++ [decorateBlockWith registry c] ∧
      (∀ x ∈ acc.1.links, x ∈ (decorateBlocksStep registry importModule acc c).1.links) ∧
      (∀ x ∈ acc.1.moduleImports, x ∈ (decorateBlocksStep registry importModule acc c).1.moduleImports) ∧
      (∀ x ∈ acc.1.console, x ∈ (decorateBlocksStep registry importModule acc c).1.console) := by
  cases hres : (decorateBlockWith registry c).result with
  | error e =>
    rw [decorateBlocksStep_error registry importModule acc c e hres]
    exact ⟨rfl, fun _ hx => hx, fun _ hx => hx, fun _ hx => hx⟩
  | ok name =>
    rw [decorateBlocksStep_ok registry importModule acc c name hres]
    exact ⟨rfl, fun _ hx => (mem_loadCSS _ _ _).2 (Or.inl hx),
      fun _ hx => List.mem_append_left _ hx, fun _ hx => List.mem_append_left _ hx⟩

theorem decorateBlocks_foldl (registry : List String) (importModule : String → ImportResult)
    (blocks : List (List String)) (acc : PageState × List BlockRun) :
    (blocks.foldl (decorateBlocksStep registry importModule) acc).2 =
        acc.2 ++ blocks.map (decorateBlockWith registry) ∧
      (∀ x ∈ acc.1.links,
        x ∈ (blocks.foldl (decorateBlocksStep registry importModule) acc).1.links) ∧
      (∀ x ∈ acc.1.moduleImports,
        x ∈ (blocks.foldl (decorateBlocksStep registry importModule) acc).1.moduleImports) ∧
      (∀ x ∈ acc.1.console,
        x ∈ (blocks.foldl (decorateBlocksStep registry importModule) acc).1.console) ∧
      (∀ c ∈ blocks, ∀ name, (decorateBlockWith registry c).result = .ok name →
        stylePath name ∈ (blocks.foldl (decorateBlocksStep registry importModule) acc).1.links ∧
        modulePath name ∈
          (blocks.foldl (decorateBlocksStep registry importModule) acc).1.moduleImports ∧
        ∀ l ∈ settleImport (importModule (modulePath name)) name,
          l ∈ (blocks.foldl (decorateBlocksStep registry importModule) acc).1.console) := by
  induction blocks generalizing acc with
  | nil => simp
  | cons c cs ih =>
    rw [List.foldl_cons]
    obtain ⟨ih1, ih2, ih3, ih4, ih5⟩ := ih (decorateBlocksStep registry importModule acc c)
    obtain ⟨hstep2, hlinks, himports, hconsole⟩ :=
      decorateBlocksStep_mono registry importModule acc c
    refine ⟨?_, fun x hx => ih2 x (hlinks x hx), fun x hx => ih3 x (himports x hx),
      fun x hx => ih4 x (hconsole x hx), ?_⟩
    · rw [ih1, hstep2]
      simp
    · intro c' hc' name hname
      rcases List.mem_cons.1 hc' with rfl | hmem
      · have hs := decorateBlocksStep_ok registry importModule acc c' name hname
        refine ⟨ih2 _ ?_, ih3 _ ?_, fun l hl => ih4 _ ?_⟩
        · rw [hs]
          exact (mem_loadCSS _ _ _).2 (Or.inr rfl)
        · rw [hs]
          simp
        · rw [hs]
          exact List.mem_append_right _ hl
      · exact ih5 c' hmem name hname

/-- C8: when the import of a block's module is rejected, the block keeps a normal result
instead of an exception, it has the class `block`, its stylesheet has been passed to
`loadCSS`, the failure is on the console, and every block of the page, those after the
failing one included, is run through the callback, with the module and the stylesheet of
every block that reaches line 112 requested. -/
theorem decorateBlocks_import_rejected (importModule : String → ImportResult)
    (page : PageState) (pre post : List (List String)) (classes : List String)
    (blockName : String) (hrun : (decorateBlock classes).result = .ok blockName)
    (hfail : importModule (modulePath blockName) = .rejected) :
    (decorateBlocks blocksWithOptions importModule page (pre ++ classes :: post)).2 =
        pre.map decorateBlock ++ decorateBlock classes :: post.map decorateBlock ∧
      "block" ∈ (decorateBlock classes).classList ∧
      modulePath blockName ∈
        (decorateBlocks blocksWithOptions importModule page (pre ++ classes :: post)).1.moduleImports ∧
      stylePath blockName ∈
        (decorateBlocks blocksWithOptions importModule page (pre ++ classes :: post)).1.links ∧
      LogEntry.failedToLoadModule ∈
        (decorateBlocks blocksWithOptions importModule page (pre ++ classes :: post)).1.console ∧
      (∀ c ∈ post, ∀ name, (decorateBlock c).result = .ok name →
        modulePath name ∈
          (decorateBlocks blocksWithOptions importModule page
            (pre ++ classes :: post)).1.moduleImports ∧
        stylePath name ∈
          (decorateBlocks blocksWithOptions importModule page
            (pre ++ classes :: post)).1.links) := by
  obtain ⟨h1, -, -, -, h5⟩ :=
    decorateBlocks_foldl blocksWithOptions importModule (pre ++ classes :: post) (page, [])
  have hmem : classes ∈ pre ++ classes :: post := by simp
  obtain ⟨hl, hi, hc⟩ := h5 classes hmem blockName hrun
  refine ⟨?_, block_mem_of_result_ok _ _ _ hrun, hi, hl, ?_, ?_⟩
  · unfold decorateBlocks
    rw [h1]
    simp only [List.nil_append, List.map_append, List.map_cons]
    rfl
  · apply hc
    rw [hfail]
    simp [settleImport]
  · intro c hc' name hname
    have hmem' : c ∈ pre ++ classes :: post := by simp [hc']
    obtain ⟨hl', hi', -⟩ := h5 c hmem' name hname
    exact ⟨hi', hl'⟩

theorem decorateBlocks_import_rejected_witness :
    (decorateBlocks blocksWithOptions
        (fun m => if m = "/express/blocks/nope/nope.js" then .rejected else .loaded false)
        ⟨[], [], []⟩ ([["hero"]] ++ ["nope"] :: [["columns"]])).2 =
      [["hero"]].map decorateBlock ++ decorateBlock ["nope"] :: [["columns"]].map decorateBlock ∧
    "block" ∈ (decorateBlock ["nope"]).classList ∧
    stylePath "columns" ∈
      (decorateBlocks blocksWithOptions
        (fun m => if m = "/express/blocks/nope/nope.js" then .rejected else .loaded false)
        ⟨[], [], []⟩ ([["hero"]] ++ ["nope"] :: [["columns"]])).1.links := by
  have h := decorateBlocks_import_rejected
    (fun m => if m = "/express/blocks/nope/nope.js" then .rejected else .loaded false)
    ⟨[], [], []⟩ [["hero"]] [["columns"]] ["nope"] "nope" rfl (by decide)
  exact ⟨h.1, h.2.1, (h.2.2.2.2.2 ["columns"] (by simp) "columns" rfl).2⟩

/-! ### Tutorials -/

theorem foldl_append_singleton_map {α β : Type} (f : α → β) (xs : List α) (acc : List β) :
    xs.foldl (fun r x => r ++ [f x]) acc = acc ++ xs.map f := by
  induction xs generalizing acc with
  | nil => simp
  | cons x xs ih => simp [ih]

/-- C6: for a non-empty selection of chips, the cards left in the results container by
`displayFilteredTutorials` are the cards of the tutorials whose tag list contains every
selected tag, one card for each, in the order of the tutorials, whatever the container
held before. -/
theorem displayFilteredTutorials_superset (tutorials : List Tutorial) (view : FilterView)
    (filters : List String) (hne : filters ≠ []) :
    (displayFilteredTutorials tutorials view filters).results =
        (tutorials.filter fun tut => decide (∀ v ∈ filters, v ∈ tut.tags)).map
          createTutorialCard ∧
      ((displayFilteredTutorials tutorials view filters).results.map
        TutorialCard.tutorial).Sublist tutorials ∧
      (∀ tut, tut ∈ (displayFilteredTutorials tutorials view filters).results.map
          TutorialCard.tutorial ↔ tut ∈ tutorials ∧ filters ⊆ tut.tags) ∧
      (displayFilteredTutorials tutorials view filters).results.length =
        tutorials.countP fun tut => decide (filters ⊆ tut.tags) := by
  have hlen : filters.length ≠ 0 := by
    intro h
    exact hne (List.length_eq_zero.1 h)
  have hpred : (fun tut : Tutorial => filters.all fun v => decide (v ∈ tut.tags)) =
      fun tut => decide (∀ v ∈ filters, v ∈ tut.tags) := by
    funext tut
    rw [Bool.eq_iff_iff]
    simp [List.all_eq_true]
  have hres : (displayFilteredTutorials tutorials view filters).results =
      (tutorials.filter fun tut => decide (∀ v ∈ filters, v ∈ tut.tags)).map
        createTutorialCard := by
    unfold displayFilteredTutorials
    simp only [hlen, ne_eq, not_false_eq_true, if_true, foldl_append_singleton_map,
      List.nil_append, hpred]
  have hmap : ((tutorials.filter fun tut => decide (∀ v ∈ filters, v ∈ tut.tags)).map
      createTutorialCard).map TutorialCard.tutorial =
      tutorials.filter fun tut => decide (∀ v ∈ filters, v ∈ tut.tags) := by
    rw [List.map_map]
    have : TutorialCard.tutorial ∘ createTutorialCard = id := by
      funext t
      rfl
    rw [this, List.map_id]
  refine ⟨hres, ?_, ?_, ?_⟩
  · rw [hres, hmap]
    exact List.filter_sublist _
  · intro tut
    rw [hres, hmap, List.mem_filter]
    simp [List.subset_def]
  · rw [hres, List.length_map, List.countP_eq_length_filter]
    have hsub : (fun tut : Tutorial => decide (filters ⊆ tut.tags)) =
        fun tut => decide (∀ v ∈ filters, v ∈ tut.tags) := by
      funext tut
      rfl
    rw [hsub]

theorem displayFilteredTutorials_superset_witness :
    (displayFilteredTutorials
        [⟨"t1", "/1", "1:00", ["A", "B"], [], none⟩, ⟨"t2", "/2", "2:00", ["A"], [], none⟩,
          ⟨"t3", "/3", "3:00", ["B", "C", "A"], [], none⟩]
        ⟨[], []⟩ ["A", "B"]).results.map TutorialCard.tutorial =
      [⟨"t1", "/1", "1:00", ["A", "B"], [], none⟩, ⟨"t3", "/3", "3:00", ["B", "C", "A"], [], none⟩] := by
  rw [(displayFilteredTutorials_superset _ ⟨[], []⟩ ["A", "B"] (by decide)).1]
  decide

theorem foldl_toggleStep_before (show_ : Bool) (pre acc : List (List String))
    (hpre : ∀ e ∈ pre, "tutorials" ∉ e) :
    pre.foldl (toggleStep show_) (acc, false) = (acc ++ pre, false) := by
  induction pre generalizing acc with
  | nil => simp
  | cons e es ih =>
    have he : "tutorials" ∉ e := hpre e (List.mem_cons_self _ _)
    rw [List.foldl_cons]
    have hstep : toggleStep show_ (acc, false) e = (acc ++ [e], false) := by
      simp [toggleStep, he]
    rw [hstep, ih _ (fun e' he' => hpre e' (List.mem_cons_of_mem _ he'))]
    simp

theorem foldl_toggleStep_after (show_ : Bool) (post acc : List (List String)) :
    post.foldl (toggleStep show_) (acc, true) =
      (acc ++ post.map (fun e =>
        if show_ then classListRemove e "hidden" else addTokens e ["hidden"]), true) := by
  induction post generalizing acc with
  | nil => simp
  | cons e es ih =>
    rw [List.foldl_cons]
    have hstep : toggleStep show_ (acc, true) e =
        (acc ++ [if show_ then classListRemove e "hidden" else addTokens e ["hidden"]],
          true) := by
      simp [toggleStep]
    rw [hstep, ih]
    simp

theorem toggleCategories_split (show_ : Bool) (pre post : List (List String))
    (t : List String) (hpre : ∀ e ∈ pre, "tutorials" ∉ e) (ht : "tutorials" ∈ t) :
    toggleCategories (pre ++ t :: post) show_ =
      pre ++ t :: post.map (fun e =>
        if show_ then classListRemove e "hidden" else addTokens e ["hidden"]) := by
  unfold toggleCategories
  rw [List.foldl_append, foldl_toggleStep_before show_ pre [] hpre, List.foldl_cons]
  have hstep : toggleStep show_ ([] ++ pre, false) t = (pre ++ [t], true) := by
    simp [toggleStep, ht]
  rw [hstep, foldl_toggleStep_after]
  simp

/-- C7: let the children of the section be `pre`, then the first child of class
`tutorials`, then `post`. Called with an empty selection, `displayFilteredTutorials`
leaves the results container empty and removes `hidden` from every child in `post`;
called with a non-empty selection it adds `hidden` to every child in `post`; in both
cases the tutorials block and the children in `pre` keep their class lists. -/
theorem displayFilteredTutorials_toggle (tutorials : List Tutorial) (view : FilterView)
    (filters : List String) (pre post : List (List String)) (t : List String)
    (hsec : view.section_ = pre ++ t :: post) (hpre : ∀ e ∈ pre, "tutorials" ∉ e)
    (ht : "tutorials" ∈ t) :
    (filters = [] →
      (displayFilteredTutorials tutorials view filters).results = [] ∧
      (displayFilteredTutorials tutorials view filters).section_ =
        pre ++ t :: post.map (fun e => classListRemove e "hidden") ∧
      ∀ e ∈ post, "hidden" ∉ classListRemove e "hidden") ∧
    (filters ≠ [] →
      (displayFilteredTutorials tutorials view filters).section_ =
        pre ++ t :: post.map (fun e => addTokens e ["hidden"]) ∧
      ∀ e ∈ post, "hidden" ∈ addTokens e ["hidden"]) := by
  constructor
  · intro hnil
    subst hnil
    refine ⟨rfl, ?_, ?_⟩
    · simp only [displayFilteredTutorials, List.length_nil, ne_eq, not_true_eq_false,
        if_false, hsec, toggleCategories_split true pre post t hpre ht, if_true]
    · intro e _
      simp [classListRemove]
  · intro hne
    have hlen : filters.length ≠ 0 := by
      intro h
      exact hne (List.length_eq_zero.1 h)
    refine ⟨?_, ?_⟩
    · simp only [displayFilteredTutorials, hlen, ne_eq, not_false_eq_true, if_true, hsec,
        toggleCategories_split false pre post t hpre ht, Bool.false_eq_true, if_false]
    · intro e _
      simp [mem_addTokens]

theorem displayFilteredTutorials_toggle_witness :
    (displayFilteredTutorials [] ⟨[], [["intro"], ["tutorials", "block"], ["results", "hidden"], []]⟩
        []).section_ =
      [["intro"]] ++ ["tutorials", "block"] ::
        [["results", "hidden"], []].map (fun e => classListRemove e "hidden") :=
  ((displayFilteredTutorials_toggle []
    ⟨[], [["intro"], ["tutorials", "block"], ["results", "hidden"], []]⟩ []
    [["intro"]] [["results", "hidden"], []] ["tutorials", "block"] rfl (by decide)
    (by decide)).1 rfl).2.1

theorem pushTags_snoc (acc xs : List String) (x : String) :
    pushTags acc (xs ++ [x]) =
      if x ∈ pushTags acc xs then pushTags acc xs else pushTags acc xs ++ [x] := by
  simp [pushTags, List.foldl_append]

theorem allTagsOf_eq_pushTags (tutorials : List Tutorial) :
    allTagsOf tutorials = pushTags [] (tutorials.map Tutorial.tags).flatten := by
  unfold allTagsOf pushTags
  rw [List.foldl_flatten, List.foldl_map]

theorem pushTags_spec (xs : List String) :
    (pushTags [] xs).Nodup ∧ (∀ tag, tag ∈ pushTags [] xs ↔ tag ∈ xs) ∧
      (pushTags [] xs).Pairwise (fun a b => xs.indexOf a < xs.indexOf b) := by
  induction xs using List.reverseRecOn with
  | nil => simp [pushTags]
  | append_singleton xs x ih =>
    obtain ⟨hnd, hmem, hpw⟩ := ih
    have hpw' : (pushTags [] xs).Pairwise
        (fun a b => (xs ++ [x]).indexOf a < (xs ++ [x]).indexOf b) := by
      refine hpw.imp_of_mem ?_
      intro a b ha hb hab
      rw [List.indexOf_append_of_mem ((hmem a).1 ha),
        List.indexOf_append_of_mem ((hmem b).1 hb)]
      exact hab
    rw [pushTags_snoc]
    by_cases hx : x ∈ pushTags [] xs
    · simp only [hx, if_true]
      refine ⟨hnd, ?_, hpw'⟩
      intro tag
      rw [hmem, List.mem_append, List.mem_singleton]
      constructor
      · exact Or.inl
      · rintro (h | h)
        · exact h
        · exact h ▸ (hmem x).1 hx
    · simp only [hx, if_false]
      have hx' : x ∉ xs := fun h => hx ((hmem x).2 h)
      refine ⟨?_, ?_, ?_⟩
      · rw [List.nodup_append]
        refine ⟨hnd, List.nodup_singleton x, ?_⟩
        intro a ha hb
        rw [List.mem_singleton] at hb
        exact hx (hb ▸ ha)
      · intro tag
        simp only [List.mem_append, List.mem_singleton, hmem]
      · rw [List.pairwise_append]
        refine ⟨hpw', List.pairwise_singleton _ _, ?_⟩
        intro a ha b hb
        rw [List.mem_singleton] at hb
        subst hb
        rw [List.indexOf_append_of_mem ((hmem a).1 ha), List.indexOf_append_of_not_mem hx']
        have := List.indexOf_lt_length.2 ((hmem a).1 ha)
        omega

/-- C9: the list `allTags` built by `decorateTutorials` has no duplicates, contains
exactly the tags that occur on some row, lists them in the order of their first
occurrence across the rows, and the filter container gets one chip for each entry, in
that order, with the tag as its markup. -/
theorem allTags_distinct_in_first_occurrence_order (tutorials : List Tutorial) :
    (allTagsOf tutorials).Nodup ∧
      (∀ tag, tag ∈ allTagsOf tutorials ↔ ∃ t ∈ tutorials, tag ∈ t.tags) ∧
      (allTagsOf tutorials).Pairwise (fun a b =>
        (tutorials.map Tutorial.tags).flatten.indexOf a <
          (tutorials.map Tutorial.tags).flatten.indexOf b) ∧
      (tagFilters tutorials).map TagFilter.innerHTML = allTagsOf tutorials ∧
      (tagFilters tutorials).length = (allTagsOf tutorials).length := by
  obtain ⟨hnd, hmem, hpw⟩ := pushTags_spec (tutorials.map Tutorial.tags).flatten
  rw [← allTagsOf_eq_pushTags] at hnd hmem hpw
  have hchips : tagFilters tutorials =
      (allTagsOf tutorials).map fun tag => { innerHTML := tag, classList := ["tag-filter"] } := by
    unfold tagFilters
    rw [foldl_append_singleton_map]
    simp
  refine ⟨hnd, ?_, hpw, ?_, ?_⟩
  · intro tag
    rw [hmem]
    simp only [List.mem_flatten, List.mem_map]
    constructor
    · rintro ⟨l, ⟨t, ht, rfl⟩, hl⟩
      exact ⟨t, ht, hl⟩
    · rintro ⟨t, ht, hl⟩
      exact ⟨t.tags, ⟨t, ht, rfl⟩, hl⟩
  · rw [hchips, List.map_map]
    have : (TagFilter.innerHTML ∘ fun tag : String =>
        ({ innerHTML := tag, classList := ["tag-filter"] } : TagFilter)) = id := by
      funext tag
      rfl
    rw [this, List.map_id]
  · rw [hchips, List.length_map]

/-! ### How-To schema -/

theorem howToRows_steps (rows : List (List HowToCell)) (i : Nat)
    (h : ∀ row ∈ rows, 2 ≤ row.length) :
    ∃ decorated, howToRows i rows =
      .ok (rows.mapIdx (fun j row => stepOfRow (i + j) row), decorated) := by
  induction rows generalizing i with
  | nil => exact ⟨[], rfl⟩
  | cons row rest ih =>
    obtain ⟨decorated, hrest⟩ := ih (i + 1) (fun r hr => h r (List.mem_cons_of_mem _ hr))
    have hrow := h row (List.mem_cons_self _ _)
    match row, hrow with
    | c0 :: c1 :: more, _ =>
      refine ⟨(RowChild.number ("<span>" ++ toString (i + 1) ++ "</span>") ::
        RowChild.tip c0.textContent c1 :: more.map RowChild.cell) :: decorated, ?_⟩
      simp only [howToRows, howToRow, hrest, List.mapIdx_cons]
      simp [stepOfRow, Nat.add_assoc, Nat.add_comm 1]

theorem decorateHowTo_wellFormed (blocks : List HowToBlock) (head : List SchemaScript)
    (h : ∀ b ∈ blocks, b.heading.isSome = true ∧ ∀ row ∈ b.rows, 2 ≤ row.length) :
    decorateHowTo head blocks =
      (head ++ blocks.map (fun b =>
        { scriptType := "application/ld+json",
          schema := { name := b.heading.getD "",
                      step := b.rows.mapIdx (fun j row => stepOfRow j row) } }), none) := by
  induction blocks generalizing head with
  | nil => simp [decorateHowTo]
  | cons b bs ih =>
    obtain ⟨hhead, hrows⟩ := h b (List.mem_cons_self _ _)
    obtain ⟨decorated, hsteps⟩ := howToRows_steps b.rows 0 hrows
    obtain ⟨name, hname⟩ := Option.isSome_iff_exists.1 hhead
    have hblock : howToBlock b =
        .ok ({ name := name, step := b.rows.mapIdx (fun j row => stepOfRow j row) },
          decorated) := by
      simp only [howToBlock, hname, hsteps, Nat.zero_add]
    simp only [decorateHowTo, hblock]
    rw [ih _ (fun b' hb' => h b' (List.mem_cons_of_mem _ hb'))]
    simp [hname]

theorem decorateHowTo_scripts (blocks : List HowToBlock) (head : List SchemaScript) :
    ∃ scripts, (decorateHowTo head blocks).1 = head ++ scripts ∧
      scripts.length ≤ blocks.length ∧
      (∀ sc ∈ scripts, sc.scriptType = "application/ld+json") ∧
      ((decorateHowTo head blocks).2 = none → scripts.length = blocks.length) := by
  induction blocks generalizing head with
  | nil => exact ⟨[], by simp [decorateHowTo], le_rfl, by simp, fun _ => rfl⟩
  | cons b bs ih =>
    cases hb : howToBlock b with
    | error e =>
      refine ⟨[], by simp [decorateHowTo, hb], by simp, by simp, ?_⟩
      simp [decorateHowTo, hb]
    | ok out =>
      obtain ⟨schema, decorated⟩ := out
      obtain ⟨scripts, h1, h2, h3, h4⟩ :=
        ih (head ++ [{ scriptType := "application/ld+json", schema := schema }])
      refine ⟨⟨"application/ld+json", schema⟩ :: scripts, ?_, ?_, ?_, ?_⟩
      · simp only [decorateHowTo, hb, h1]
        simp
      · simpa using h2
      · intro sc hsc
        rcases List.mem_cons.1 hsc with rfl | hmem
        · rfl
        · exact h3 sc hmem
      · intro hnone
        simp only [decorateHowTo, hb] at hnone
        simpa using h4 hnone

/-- C10: `decorateHowTo` appends to the head one script of type `application/ld+json` for
each how-to-steps block it decorates, none for a block at which an exception ends the
loop or for the blocks after it; when every block has a previous element sibling and
every row has at least two cells, no exception is raised and there is one script for each
block, in order. The schema of a block has the text of the previous sibling as its name
and one step for each row, in row order, where step `i` (1-based) has position `i`, the
text of the first cell of row `i` as its name and the text of the second cell of row `i`,
as it is before the row is decorated, as its direction text. -/
theorem decorateHowTo_one_script_per_block (head : List SchemaScript)
    (blocks : List HowToBlock) :
    (∃ scripts, (decorateHowTo head blocks).1 = head ++ scripts ∧
      scripts.length ≤ blocks.length ∧
      (∀ sc ∈ scripts, sc.scriptType = "application/ld+json") ∧
      ((decorateHowTo head blocks).2 = none → scripts.length = blocks.length)) ∧
    ((∀ b ∈ blocks, b.heading.isSome = true ∧ ∀ row ∈ b.rows, 2 ≤ row.length) →
      ∃ scripts, decorateHowTo head blocks = (head ++ scripts, none) ∧
        scripts.length = blocks.length ∧
        ∀ (k : Nat) (b : HowToBlock), blocks[k]? = some b →
          ∃ sc : SchemaScript, scripts[k]? = some sc ∧
            sc.scriptType = "application/ld+json" ∧
            some sc.schema.name = b.heading ∧
            sc.schema.step.length = b.rows.length ∧
            ∀ (i : Nat) (row : List HowToCell), b.rows[i]? = some row →
              ∃ (c0 c1 : HowToCell) (st : HowToStep), row[0]? = some c0 ∧
                row[1]? = some c1 ∧
                sc.schema.step[i]? = some st ∧ st.position = i + 1 ∧
                st.name = c0.textContent ∧ st.text = c1.textContent) := by
  refine ⟨decorateHowTo_scripts blocks head, ?_⟩
  intro h
  refine ⟨_, decorateHowTo_wellFormed blocks head h, by simp, ?_⟩
  intro k b hb
  obtain ⟨hhead, hrows⟩ := h b (List.getElem?_mem hb)
  obtain ⟨name, hname⟩ := Option.isSome_iff_exists.1 hhead
  refine ⟨⟨"application/ld+json",
      ⟨b.heading.getD "", b.rows.mapIdx (fun j row => stepOfRow j row)⟩⟩,
    by simp [hb], rfl, by simp [hname], by simp, ?_⟩
  intro i row hrow
  have hlen := hrows row (List.getElem?_mem hrow)
  match row, hlen with
  | c0 :: c1 :: more, _ =>
    refine ⟨c0, c1, stepOfRow i (c0 :: c1 :: more), by simp, by simp, ?_, rfl,
      by simp [stepOfRow], by simp [stepOfRow]⟩
    simp [List.getElem?_mapIdx, hrow]

theorem decorateHowTo_one_script_per_block_witness :
    ∃ scripts,
      decorateHowTo [] [⟨some "How to bake", [[⟨"Mix"⟩, ⟨"Stir well"⟩], [⟨"Bake"⟩, ⟨"One hour"⟩]]⟩] =
        ([] ++ scripts, none) ∧ scripts.length = 1 :=
  let ⟨scripts, h1, h2, _⟩ := (decorateHowTo_one_script_per_block []
    [⟨some "How to bake", [[⟨"Mix"⟩, ⟨"Stir well"⟩], [⟨"Bake"⟩, ⟨"One hour"⟩]]⟩]).2 (by decide)
  ⟨scripts, h1, h2⟩

/-! ### Gating of the A/B test -/

/-- C11: the test runs exactly when the user agent does not match `bot|crawl|spider`
and either the query string is `?test` or both the host contains `adobe.com` and the hash
is empty; with the query string `?test` the test runs exactly when the user agent is no
bot, whatever the host and the hash, and for a bot it never runs. The user agent matches
exactly when one of the words `bot`, `crawl`, `spider` occurs in it with each letter in
either case. -/
theorem runTest_iff (loc : Location) (userAgent : String) :
    (runTest loc userAgent = true ↔
      isBot userAgent = false ∧
        (loc.search = "?test" ∨ (includes loc.host "adobe.com" = true ∧ loc.hash = ""))) ∧
    (loc.search = "?test" → (runTest loc userAgent = true ↔ isBot userAgent = false)) ∧
    (isBot userAgent = true → runTest loc userAgent = false) ∧
    (isBot userAgent = true ↔
      ∃ w ∈ ["bot", "crawl", "spider"], ∃ pre post : List Char,
        userAgent.data.map Char.toLower = pre ++ w.data ++ post) ∧
    (includes loc.host "adobe.com" = true ↔
      ∃ pre post : List Char, loc.host.data = pre ++ "adobe.com".data ++ post) := by
  have hinc : ∀ s t : String, includes s t = true ↔
      ∃ pre post : List Char, s.data = pre ++ t.data ++ post := by
    intro s t
    simp only [includes, decide_eq_true_eq, List.IsInfix]
    constructor
    · rintro ⟨pre, post, h⟩
      exact ⟨pre, post, h.symm⟩
    · rintro ⟨pre, post, h⟩
      exact ⟨pre, post, h.symm⟩
  refine ⟨?_, ?_, ?_, ?_, hinc _ _⟩
  · unfold runTest
    by_cases hb : isBot userAgent = true <;> by_cases hs : loc.search = "?test" <;>
      by_cases hh : includes loc.host "adobe.com" = true <;> by_cases hx : loc.hash = "" <;>
      simp [hb, hs, hh, hx]
  · unfold runTest
    by_cases hb : isBot userAgent = true <;> by_cases hs : loc.search = "?test" <;>
      by_cases hh : includes loc.host "adobe.com" = true <;> by_cases hx : loc.hash = "" <;>
      simp [hb, hs, hh, hx]
  · unfold runTest
    by_cases hb : isBot userAgent = true <;> by_cases hs : loc.search = "?test" <;>
      by_cases hh : includes loc.host "adobe.com" = true <;> by_cases hx : loc.hash = "" <;>
      simp [hb, hs, hh, hx]
  · simp only [isBot, Bool.or_eq_true, hinc, List.mem_cons, List.mem_singleton,
      List.not_mem_nil, or_false, exists_eq_or_imp, exists_eq_left]
    exact or_assoc

/-! ### The cell loop of the columns decorator -/

theorem decorateCells_cons_ok (f : Nat → Cell → Except (DomError × Cell) Cell) (k : Nat)
    (c c' : Cell) (cs : List Cell) (hf : f k c = .ok c') :
    decorateCells f k (c :: cs) =
      (c' :: (decorateCells f (k + 1) cs).1, (decorateCells f (k + 1) cs).2) := by
  rw [decorateCells]
  simp only [hf]

theorem decorateCells_cons_error (f : Nat → Cell → Except (DomError × Cell) Cell) (k : Nat)
    (c c' : Cell) (cs : List Cell) (e : DomError) (hf : f k c = .error (e, c')) :
    decorateCells f k (c :: cs) = (c' :: cs, some e) := by
  rw [decorateCells]
  simp only [hf]

theorem decorateCells_of_no_error (f : Nat → Cell → Except (DomError × Cell) Cell)
    (row : List Cell) (k : Nat) (h : (decorateCells f k row).2 = none) :
    ∀ (j : Nat) (c : Cell), row[j]? = some c →
      ∃ c', f (k + j) c = .ok c' ∧ (decorateCells f k row).1[j]? = some c' := by
  induction row generalizing k with
  | nil => intro j c hc; simp at hc
  | cons x xs ih =>
    intro j c hc
    cases hf : f k x with
    | error ec =>
      obtain ⟨e, c'⟩ := ec
      rw [decorateCells_cons_error f k x c' xs e hf] at h
      simp at h
    | ok x' =>
      rw [decorateCells_cons_ok f k x x' xs hf] at h ⊢
      cases j with
      | zero =>
        simp only [List.getElem?_cons_zero, Option.some.injEq] at hc
        subst hc
        exact ⟨x', hf, by simp⟩
      | succ j =>
        simp only [List.getElem?_cons_succ] at hc
        obtain ⟨c', h1, h2⟩ := ih (k + 1) h j c hc
        refine ⟨c', ?_, by simpa using h2⟩
        rw [← h1]
        congr 1
        omega

theorem decorateCells_progress (f : Nat → Cell → Except (DomError × Cell) Cell)
    (row : List Cell) (k : Nat)
    (h : ∀ (j : Nat) (c : Cell), row[j]? = some c → ∃ c', f (k + j) c = .ok c') :
    (decorateCells f k row).2 = none := by
  induction row generalizing k with
  | nil => rfl
  | cons x xs ih =>
    obtain ⟨x', hx⟩ := h 0 x (by simp)
    rw [decorateCells_cons_ok f k x x' xs hx]
    apply ih (k + 1)
    intro j c hc
    obtain ⟨c', hc'⟩ := h (j + 1) c (by simpa using hc)
    refine ⟨c', ?_⟩
    rw [← hc']
    congr 1
    omega

theorem decorateRows_cons_ok (g : Nat → Nat → Cell → Except (DomError × Cell) Cell)
    (r : Nat) (row : List Cell) (rows : List (List Cell))
    (h : (decorateCells (g r) 0 row).2 = none) :
    decorateRows g r (row :: rows) =
      ((decorateCells (g r) 0 row).1 :: (decorateRows g (r + 1) rows).1,
        (decorateRows g (r + 1) rows).2) := by
  rw [decorateRows]
  simp only [h]

theorem decorateRows_cons_error (g : Nat → Nat → Cell → Except (DomError × Cell) Cell)
    (r : Nat) (row : List Cell) (rows : List (List Cell)) (e : DomError)
    (h : (decorateCells (g r) 0 row).2 = some e) :
    decorateRows g r (row :: rows) = ((decorateCells (g r) 0 row).1 :: rows, some e) := by
  rw [decorateRows]
  simp only [h]

theorem decorateRows_of_no_error (g : Nat → Nat → Cell → Except (DomError × Cell) Cell)
    (rows : List (List Cell)) (r : Nat) (h : (decorateRows g r rows).2 = none) :
    ∀ (i : Nat) (row : List Cell), rows[i]? = some row →
      (decorateCells (g (r + i)) 0 row).2 = none ∧
      (decorateRows g r rows).1[i]? = some (decorateCells (g (r + i)) 0 row).1 := by
  induction rows generalizing r with
  | nil => intro i row hrow; simp at hrow
  | cons x xs ih =>
    intro i row hrow
    cases hx : (decorateCells (g r) 0 x).2 with
    | some e =>
      rw [decorateRows_cons_error g r x xs e hx] at h
      simp at h
    | none =>
      rw [decorateRows_cons_ok g r x xs hx] at h ⊢
      cases i with
      | zero =>
        simp only [List.getElem?_cons_zero, Option.some.injEq] at hrow
        subst hrow
        exact ⟨hx, by simp⟩
      | succ i =>
        simp only [List.getElem?_cons_succ] at hrow
        obtain ⟨h1, h2⟩ := ih (r + 1) h i row hrow
        have hidx : r + (i + 1) = r + 1 + i := by omega
        rw [hidx]
        exact ⟨h1, by simpa using h2⟩

theorem decorateRows_progress (g : Nat → Nat → Cell → Except (DomError × Cell) Cell)
    (rows : List (List Cell)) (r : Nat)
    (h : ∀ (i : Nat) (row : List Cell), rows[i]? = some row →
      (decorateCells (g (r + i)) 0 row).2 = none) :
    (decorateRows g r rows).2 = none := by
  induction rows generalizing r with
  | nil => rfl
  | cons x xs ih =>
    have hx := h 0 x (by simp)
    rw [decorateRows_cons_ok g r x xs hx]
    apply ih (r + 1)
    intro i row hrow
    have := h (i + 1) row (by simpa using hrow)
    have hidx : r + (i + 1) = r + 1 + i := by omega
    rwa [hidx] at this

/-! ### Heading scaling: which headings are changed -/

/-- C13 (as amended): let no selected heading before `h` in document order, nor `h` itself
if selected, have a computed height without digits. Then `scaleHeader` assigns the font
size and the line height of `h` exactly when `h` is a heading of level 1 to 5 in a
columns block and its line count `ceil(heightInt / lineHeightFloat)` is greater than 3,
and then both lengths are the table values times a factor below 1; otherwise `h` is left
as it is, in particular with at most 3 lines and when its line height is not read as a
number. -/
theorem scaleHeader_only_above_three_lines (pre post : List Heading) (h : Heading)
    (hpre : ∀ x ∈ pre, selected x = true → (heightInt x.height).isSome = true)
    (hh : selected h = true → (heightInt h.height).isSome = true) :
    ∃ h', (scaleHeader (pre ++ h :: post)).1[pre.length]? = some h' ∧
      ((selected h = true ∧ ∃ H, heightInt h.height = some H ∧
          exceedsMaxLines (headerLines H (lineHeightFloat h.lineHeight)) = true) →
        ∃ s : ℚ, 0 ≤ s ∧ s < 1 ∧
          h' = { h with
            styleFontSize := some (.fin (convTag2FontSize h.tagName * s)),
            styleLineHeight := some (.fin (convTag2LineHeight h.tagName * s)) }) ∧
      (¬ (selected h = true ∧ ∃ H, heightInt h.height = some H ∧
          exceedsMaxLines (headerLines H (lineHeightFloat h.lineHeight)) = true) → h' = h) ∧
      (lineHeightFloat h.lineHeight = none → h' = h) ∧
      (h.styleFontSize = none →
        (h' ≠ h ↔ selected h = true ∧ ∃ H, heightInt h.height = some H ∧
          exceedsMaxLines (headerLines H (lineHeightFloat h.lineHeight)) = true)) := by
  have hex : ∃ h', (if selected h = true then scaleHeading h else .ok h) = .ok h' ∧
      ((selected h = true ∧ ∃ H, heightInt h.height = some H ∧
          exceedsMaxLines (headerLines H (lineHeightFloat h.lineHeight)) = true) →
        ∃ s : ℚ, 0 ≤ s ∧ s < 1 ∧
          h' = { h with
            styleFontSize := some (.fin (convTag2FontSize h.tagName * s)),
            styleLineHeight := some (.fin (convTag2LineHeight h.tagName * s)) }) ∧
      (¬ (selected h = true ∧ ∃ H, heightInt h.height = some H ∧
          exceedsMaxLines (headerLines H (lineHeightFloat h.lineHeight)) = true) →
        h' = h) := by
    by_cases hsel : selected h = true
    · obtain ⟨H, hH⟩ := Option.isSome_iff_exists.1 (hh hsel)
      cases hv : exceedsMaxLines (headerLines H (lineHeightFloat h.lineHeight)) with
      | false =>
        refine ⟨h, by simp only [hsel, if_true, scaleHeading_of_not_exceeds h H hH hv],
          ?_, fun _ => rfl⟩
        rintro ⟨-, H', hH', hv'⟩
        rw [hH] at hH'
        cases hH'
        rw [hv] at hv'
        cases hv'
      | true =>
        obtain ⟨s, h0, h1, -, hs⟩ := scaleHeading_of_exceeds h H hH hv
        refine ⟨_, by simp only [hsel, if_true, hs], fun _ => ⟨s, h0, h1, rfl⟩, ?_⟩
        intro hneg
        exact absurd ⟨hsel, H, hH, hv⟩ hneg
    · refine ⟨h, by simp [hsel], ?_, fun _ => rfl⟩
      rintro ⟨hs, -⟩
      exact absurd hs hsel
  obtain ⟨h', hok, hyes, hno⟩ := hex
  refine ⟨h', scaleHeader_at pre post h h' hpre hok, hyes, hno, ?_, ?_⟩
  · intro hnone
    apply hno
    rintro ⟨-, H, -, hv⟩
    simp [headerLines, hnone, exceedsMaxLines] at hv
  · intro hfs
    constructor
    · intro hne
      by_contra hneg
      exact hne (hno hneg)
    · intro hcond hEq
      obtain ⟨s, _, _, hs⟩ := hyes hcond
      rw [hs] at hEq
      have := congrArg Heading.styleFontSize hEq
      simp [hfs] at this

theorem scaleHeader_only_above_three_lines_witness :
    ∃ h', (scaleHeader ([] ++ ⟨.H2, true, "96px", "normal", none, none⟩ :: [])).1[0]? =
        some h' ∧ h' = ⟨.H2, true, "96px", "normal", none, none⟩ := by
  obtain ⟨h', h1, -, -, h2, -⟩ := scaleHeader_only_above_three_lines [] []
    ⟨.H2, true, "96px", "normal", none, none⟩ (by simp) (fun _ => by decide)
  exact ⟨h', h1, h2 (by decide)⟩

theorem lineHeightFloat_sample_h1 : lineHeightFloat "63.6px" = some (318 / 5) := by
  have hm : matchLineHeight "63.6px".data = some (['6', '3'], some ('.', ['6'])) := by
    decide
  have h63 : digitsValue ['6', '3'] = 63 := by decide
  have h6 : digitsValue ['6'] = 6 := by decide
  simp only [lineHeightFloat, hm, h63, h6]
  norm_num

/-- C13 (as stated) fails: the first heading has the computed height `auto`, reading it
raises `TypeError` and ends the loop, and the second heading, of 300 pixels at a line
height of 63.6 pixels and so of more than 3 lines, is not modified. -/
theorem scaleHeader_only_above_three_lines_counterexample :
    scaleHeader [⟨.H3, true, "auto", "39.96px", none, none⟩,
        ⟨.H1, true, "300px", "63.6px", none, none⟩] =
      ([⟨.H3, true, "auto", "39.96px", none, none⟩,
        ⟨.H1, true, "300px", "63.6px", none, none⟩], some .typeError) ∧
    selected ⟨.H1, true, "300px", "63.6px", none, none⟩ = true ∧
    heightInt "300px" = some 300 ∧
    exceedsMaxLines (headerLines 300 (lineHeightFloat "63.6px")) = true := by
  have hceil : ⌈((300 : Nat) : ℚ) / (318 / 5)⌉ = 5 := by
    rw [Int.ceil_eq_iff]
    norm_num
  refine ⟨?_, by decide, by decide, ?_⟩
  · exact scaleHeader_cons_error _ _ .typeError (by decide) (by
      unfold scaleHeading
      have : heightInt "auto" = none := by decide
      simp only [this])
  · rw [lineHeightFloat_sample_h1]
    have hne : ¬ ((318 : ℚ) / 5 = 0) := by norm_num
    simp only [headerLines, hne, if_false, hceil, exceedsMaxLines, maxLines]
    norm_num

/-! ### Byline of a blog page -/

theorem foldl_bylineScanStep (toLowerCase : String → String) (ps : List Paragraph)
    (b q : Option (Nat × Paragraph)) (idx : Nat) :
    ps.foldl (bylineScanStep toLowerCase) (b, q, idx) =
      (b.orElse fun _ =>
          firstWith (fun p => startsWith (toLowerCase p.textContent) "by ") ps idx,
        q.orElse fun _ =>
          firstWith (fun p => startsWith (toLowerCase p.textContent) "posted on ") ps idx,
        idx + ps.length) := by
  induction ps generalizing b q idx with
  | nil => cases b <;> cases q <;> simp [firstWith]
  | cons p ps ih =>
    rw [List.foldl_cons]
    simp only [bylineScanStep]
    rw [ih]
    cases b <;> cases q <;>
      by_cases h1 : startsWith (toLowerCase p.textContent) "by " = true <;>
      by_cases h2 : startsWith (toLowerCase p.textContent) "posted on " = true <;>
      simp [firstWith, h1, h2, Nat.add_assoc, Nat.add_comm 1]

theorem firstWith_eq_some (pred : Paragraph → Bool) (ps : List Paragraph) (i idx : Nat)
    (p : Paragraph) (hp : ps[i]? = some p) (hpred : pred p = true)
    (hfirst : ∀ (k : Nat) (q : Paragraph), k < i → ps[k]? = some q → pred q = false) :
    firstWith pred ps idx = some (idx + i, p) := by
  induction ps generalizing i idx with
  | nil => simp at hp
  | cons x xs ih =>
    cases i with
    | zero =>
      simp only [List.getElem?_cons_zero, Option.some.injEq] at hp
      subst hp
      simp [firstWith, hpred]
    | succ i =>
      have hx : pred x = false := hfirst 0 x (Nat.succ_pos _) (by simp)
      simp only [List.getElem?_cons_succ] at hp
      simp only [firstWith, hx, Bool.false_eq_true, if_false]
      rw [ih i (idx + 1) hp (fun k q hk hq => hfirst (k + 1) q (Nat.succ_lt_succ hk)
        (by simpa using hq))]
      simp [Nat.add_assoc, Nat.add_comm 1]

theorem substring_append (pre rest : String) (n : Nat) (h : pre.length = n) :
    substring (pre ++ rest) n = rest := by
  have hl : pre.data.length = n := h
  simp [substring, String.data_append, ← hl]

theorem splitAfter_date (pre M D Y : String) (n : Nat) (h : pre.length = n)
    (hM : '-' ∉ M.data) (hD : '-' ∉ D.data) (hY : '-' ∉ Y.data) :
    splitAfter (pre ++ M ++ "-" ++ D ++ "-" ++ Y) n = [M, D, Y] := by
  have hl : pre.data.length = n := h
  have hdata : ((pre ++ M ++ "-" ++ D ++ "-" ++ Y).data.drop n) =
      List.intercalate ['-'] [M.data, D.data, Y.data] := by
    simp [String.data_append, ← hl, List.intercalate, List.append_assoc]
  unfold splitAfter
  rw [hdata, List.splitOn_intercalate]
  · simp
  · intro l hl
    simp only [List.mem_cons, List.mem_singleton, List.not_mem_nil, or_false] at hl
    rcases hl with rfl | rfl | rfl <;> assumption
  · simp

theorem monthName_of_nat (m : Nat) (h1 : 1 ≤ m) (h12 : m ≤ 12) :
    monthName (some (m : ℚ)) = months.getD (m - 1) "undefined" := by
  simp only [monthName, Rat.den_natCast, Rat.num_natCast, true_and]
  have : (1 : ℤ) ≤ (m : ℤ) ∧ (m : ℤ) ≤ 12 := by omega
  simp [this]

/-- C14: on a blog page, let the first paragraph whose lower-cased text starts with `by `
have the text of a 3-character prefix followed by `A`, and the first paragraph whose
lower-cased text starts with `posted on ` have the text of a 10-character prefix followed
by `M-D-Y`, with no dash inside `M`, `D` and `Y` and with `M` read as a number `m` from 1
to 12. Then `decorateBlogPage` sets the markup of the first paragraph to
`<span class="byline"><img src="/icons/user.svg"> A | Name D, Y </span>`, where `Name` is
the `m`-th of the English month names January to December, removes the second paragraph
and leaves the markup of the other paragraphs as it is. -/
theorem decorateBlogPage_byline (toLowerCase : String → String)
    (toNumber : String → Option ℚ) (ps : List Paragraph) (i j : Nat)
    (pBy pPosted : Paragraph) (pre1 A pre2 M D Y : String) (m : Nat)
    (hBy : ps[i]? = some pBy) (hByText : pBy.textContent = pre1 ++ A)
    (hpre1 : pre1.length = 3)
    (hByStart : startsWith (toLowerCase pBy.textContent) "by " = true)
    (hByFirst : ∀ (k : Nat) (q : Paragraph), k < i → ps[k]? = some q →
      startsWith (toLowerCase q.textContent) "by " = false)
    (hPosted : ps[j]? = some pPosted)
    (hPostedText : pPosted.textContent = pre2 ++ M ++ "-" ++ D ++ "-" ++ Y)
    (hpre2 : pre2.length = 10)
    (hPostedStart : startsWith (toLowerCase pPosted.textContent) "posted on " = true)
    (hPostedFirst : ∀ (k : Nat) (q : Paragraph), k < j → ps[k]? = some q →
      startsWith (toLowerCase q.textContent) "posted on " = false)
    (hM : '-' ∉ M.data) (hD : '-' ∉ D.data) (hY : '-' ∉ Y.data)
    (hm : toNumber M = some (m : ℚ)) (h1 : 1 ≤ m) (h12 : m ≤ 12) :
    ∃ name,
      (["January", "February", "March", "April", "May", "June", "July", "August",
        "September", "October", "November", "December"] : List String)[m - 1]? = some name ∧
      decorateBlogPage toLowerCase toNumber true (some ps) =
        .ok (some (((ps.map Paragraph.innerHTML).set i
          ("<span class=\"byline\"><img src=\"/icons/user.svg\"> " ++ A ++ " | " ++ name ++
            " " ++ D ++ ", " ++ Y ++ " </span>")).eraseIdx j)) := by
  have hlt : m - 1 < months.length := by
    simp [months]
    omega
  refine ⟨months[m - 1], List.getElem?_eq_getElem hlt, ?_⟩
  have hscan := foldl_bylineScanStep toLowerCase ps none none 0
  rw [firstWith_eq_some _ ps i 0 pBy hBy hByStart hByFirst,
    firstWith_eq_some _ ps j 0 pPosted hPosted hPostedStart hPostedFirst] at hscan
  simp only [Option.orElse, Nat.zero_add] at hscan
  have hmarkup : bylineMarkup toNumber pBy.textContent pPosted.textContent =
      "<span class=\"byline\"><img src=\"/icons/user.svg\"> " ++ A ++ " | " ++
        months[m - 1] ++ " " ++ D ++ ", " ++ Y ++ " </span>" := by
    unfold bylineMarkup
    rw [hByText, hPostedText, substring_append pre1 A 3 hpre1,
      splitAfter_date pre2 M D Y 10 hpre2 hM hD hY]
    simp only [List.getD_cons_zero, List.getD_cons_succ, hm, monthName_of_nat m h1 h12]
    rw [List.getD_eq_getElem _ _ hlt]
  simp only [decorateBlogPage, if_true, hscan, hmarkup]

theorem decorateBlogPage_byline_witness :
    decorateBlogPage (fun s => ⟨s.data.map Char.toLower⟩)
        (fun s => if s = "03" then some ((3 : Nat) : ℚ) else none) true
        (some [⟨"Intro", "Intro"⟩, ⟨"By Ada", "<em>By Ada</em>"⟩,
          ⟨"Posted on 03-14-2021", "Posted on 03-14-2021"⟩]) =
      .ok (some ["Intro",
        "<span class=\"byline\"><img src=\"/icons/user.svg\"> Ada | March 14, 2021 </span>"]) := by
  obtain ⟨name, hname, h⟩ := decorateBlogPage_byline (fun s => ⟨s.data.map Char.toLower⟩)
    (fun s => if s = "03" then some ((3 : Nat) : ℚ) else none)
    [⟨"Intro", "Intro"⟩, ⟨"By Ada", "<em>By Ada</em>"⟩,
      ⟨"Posted on 03-14-2021", "Posted on 03-14-2021"⟩]
    1 2 ⟨"By Ada", "<em>By Ada</em>"⟩ ⟨"Posted on 03-14-2021", "Posted on 03-14-2021"⟩
    "By " "Ada" "Posted on " "03" "14" "2021" 3
    rfl (by decide) (by decide) (by decide)
    (by
      intro k q hk hq
      interval_cases k
      simp only [List.getElem?_cons_zero, Option.some.injEq] at hq
      subst hq
      decide)
    rfl (by decide) (by decide) (by decide)
    (by
      intro k q hk hq
      interval_cases k
      · simp only [List.getElem?_cons_zero, Option.some.injEq] at hq
        subst hq
        decide
      · simp only [List.getElem?_cons_succ, List.getElem?_cons_zero,
          Option.some.injEq] at hq
        subst hq
        decide)
    (by decide) (by decide) (by decide) (by simp) (by decide) (by decide)
  simp at hname
  subst hname
  rw [h]
  rfl

/-! ### Filter of the migrated pages -/

theorem foldl_filterPageStep (filter : String) (pages : List PageEntry)
    (st : Nat × List PageCard) :
    pages.foldl (filterPageStep filter) st =
      (st.1 + (pages.filter fun p => includes p.path filter).length,
        st.2 ++ (pages.filter fun p => includes p.path filter).map (pageCard filter)) := by
  induction pages generalizing st with
  | nil => simp
  | cons p ps ih =>
    rw [List.foldl_cons, ih]
    by_cases hp : includes p.path filter = true
    · simp [filterPageStep, hp, Nat.add_assoc, Nat.add_comm 1]
    · simp [filterPageStep, hp]

theorem includes_empty (s : String) : includes s "" = true := by
  simp [includes]

/-- C15: the cards `filterMigratedPages` leaves in the results container are those of the
index entries whose path contains the filter, in index order, one for each, all entries
for the empty filter and none for a missing index; the number `n` in the stats line is
the number of these entries, and the line reads `n page found` for `n = 1` and
`n pages found` otherwise. -/
theorem filterMigratedPages_count (view : PageFilterView) (index : Option (List PageEntry))
    (filter : String) :
    (filterMigratedPages view index filter).results =
        ((index.getD []).filter fun p => includes p.path filter).map (pageCard filter) ∧
      (filterMigratedPages view index filter).results.length =
        (index.getD []).countP (fun p => includes p.path filter) ∧
      (filterMigratedPages view index filter).stats =
        (if (index.getD []).countP (fun p => includes p.path filter) = 1 then
          toString ((index.getD []).countP fun p => includes p.path filter) ++ " page found"
        else
          toString ((index.getD []).countP fun p => includes p.path filter) ++
            " pages found") ∧
      (filter = "" →
        (filterMigratedPages view index filter).results.length = (index.getD []).length) ∧
      (index = none → (filterMigratedPages view index filter).results = [] ∧
        (filterMigratedPages view index filter).stats = "0 pages found") := by
  have hst : (match index with
      | some pages => pages.foldl (filterPageStep filter) (0, ([] : List PageCard))
      | none => (0, [])) =
      (((index.getD []).filter fun p => includes p.path filter).length,
        ((index.getD []).filter fun p => includes p.path filter).map (pageCard filter)) := by
    cases index with
    | none => simp
    | some pages => simp [foldl_filterPageStep]
  have hres : (filterMigratedPages view index filter).results =
      ((index.getD []).filter fun p => includes p.path filter).map (pageCard filter) := by
    simp only [filterMigratedPages, hst]
  have hstats : (filterMigratedPages view index filter).stats =
      toString ((index.getD []).filter fun p => includes p.path filter).length ++ " page" ++
        (if ((index.getD []).filter fun p => includes p.path filter).length ≠ 1 then "s"
          else "") ++ " found" := by
    simp only [filterMigratedPages, hst]
  refine ⟨hres, ?_, ?_, ?_, ?_⟩
  · rw [hres, List.length_map, List.countP_eq_length_filter]
  · rw [hstats, List.countP_eq_length_filter]
    by_cases h1 : ((index.getD []).filter fun p => includes p.path filter).length = 1
    · simp only [h1, ne_eq, not_true_eq_false, if_false, if_true]
      decide
    · simp only [h1, ne_eq, not_false_eq_true, if_true, if_false]
      rw [String.append_assoc, String.append_assoc]
      congr 1
  · intro hf
    subst hf
    rw [hres, List.length_map]
    simp [includes_empty]
  · intro hnone
    subst hnone
    refine ⟨rfl, ?_⟩
    have hzero : (toString (0 : Nat) ++ " page" ++ (if (0 : Nat) ≠ 1 then "s" else "") ++
        " found") = "0 pages found" := by decide
    exact hzero

/-! ### Filter of the blog posts -/

theorem postMatches_ok (toLowerCase : String → String) (f : List (String × List String))
    (post : Post) (h : ∀ nv ∈ f, (post.get nv.1).isSome = true) :
    postMatches toLowerCase f post =
      .ok (f.all fun nv => nv.2.any fun val =>
        includes (toLowerCase ((post.get nv.1).getD "")) val) := by
  induction f with
  | nil => rfl
  | cons nv rest ih =>
    obtain ⟨name, vals⟩ := nv
    have hrest := ih (fun nv' hnv' => h nv' (List.mem_cons_of_mem _ hnv'))
    cases vals with
    | nil => simp [postMatches]
    | cons v vs =>
      obtain ⟨field, hfield⟩ := Option.isSome_iff_exists.1 (h (name, v :: vs)
        (List.mem_cons_self _ _))
      simp only at hfield
      by_cases hany : (v :: vs).any (fun val => includes (toLowerCase field) val) = true
      · simp only [postMatches, hfield, hany, if_true, hrest, List.all_cons, Option.getD_some,
          Bool.true_and]
      · simp only [postMatches, hfield, hany, if_false, List.all_cons, Option.getD_some,
          Bool.false_and, Bool.false_eq_true]

theorem filterPosts_ok (toLowerCase : String → String) (f : List (String × List String))
    (index : List Post) (h : ∀ post ∈ index, ∀ nv ∈ f, (post.get nv.1).isSome = true) :
    filterPosts toLowerCase f index =
      .ok (index.filter fun post =>
        f.all fun nv => nv.2.any fun val =>
          includes (toLowerCase ((post.get nv.1).getD "")) val) := by
  induction index with
  | nil => rfl
  | cons post rest ih =>
    have hrest := ih (fun p hp => h p (List.mem_cons_of_mem _ hp))
    have hpost := postMatches_ok toLowerCase f post (h post (List.mem_cons_self _ _))
    simp only [filterPosts, hpost, hrest, List.filter_cons]

/-! ### Class names from titles -/

theorem dashed_isClassChar (c : Char) (hc : ¬ (65 ≤ c.toNat ∧ c.toNat ≤ 90)) :
    ∀ d ∈ dashed c, isClassChar d = true := by
  intro d hd
  unfold dashed at hd
  by_cases hcls : inAlnumClass c = true
  · simp only [hcls, if_true, List.mem_singleton] at hd
    subst hd
    simp only [inAlnumClass, Bool.or_eq_true, Bool.and_eq_true, decide_eq_true_eq] at hcls
    simp only [isClassChar, Bool.or_eq_true, Bool.and_eq_true, decide_eq_true_eq]
    rcases hcls with (h | h) | h
    · exact Or.inl (Or.inr h)
    · exact Or.inl (Or.inl h)
    · exact absurd h hc
  · simp only [hcls, Bool.false_eq_true, if_false] at hd
    have hdash : d = '-' := by
      split at hd <;> simp at hd <;> exact hd
    subst hdash
    decide

theorem dashed_of_isClassChar (c : Char) (hc : isClassChar c = true) : dashed c = [c] := by
  simp only [isClassChar, Bool.or_eq_true, Bool.and_eq_true, decide_eq_true_eq] at hc
  rcases hc with (h | h) | h
  · have : inAlnumClass c = true := by
      simp only [inAlnumClass, Bool.or_eq_true, Bool.and_eq_true, decide_eq_true_eq]
      exact Or.inl (Or.inr h)
    simp [dashed, this]
  · have : inAlnumClass c = true := by
      simp only [inAlnumClass, Bool.or_eq_true, Bool.and_eq_true, decide_eq_true_eq]
      exact Or.inl (Or.inl h)
    simp [dashed, this]
  · subst h
    decide

theorem flatMap_dashed_of_isClassChar (cs : List Char)
    (h : ∀ c ∈ cs, isClassChar c = true) : cs.flatMap dashed = cs := by
  induction cs with
  | nil => rfl
  | cons c cs ih =>
    rw [List.flatMap_cons, dashed_of_isClassChar c (h c (List.mem_cons_self _ _)),
      ih (fun d hd => h d (List.mem_cons_of_mem _ hd))]
    rfl

theorem dashed_eq_of_sameKeyChar (a b : Char) (h : sameKeyChar a b) : dashed a = dashed b := by
  rcases h with rfl | ⟨ha, hb, hab⟩
  · rfl
  · unfold dashed
    simp only [ha, hb, Bool.false_eq_true, if_false]
    by_cases h1 : 0x10000 ≤ a.toNat
    · simp [h1, hab.1 h1]
    · have h2 : ¬ 0x10000 ≤ b.toNat := fun h2 => h1 (hab.2 h2)
      simp [h1, h2]

theorem flatMap_dashed_congr (xs ys : List Char) (h : List.Forall₂ sameKeyChar xs ys) :
    xs.flatMap dashed = ys.flatMap dashed := by
  induction h with
  | nil => rfl
  | cons hab _ ih =>
    rw [List.flatMap_cons, List.flatMap_cons, dashed_eq_of_sameKeyChar _ _ hab, ih]

/-- C17: for a lower-casing whose result has no ASCII capital and which leaves strings of
lowercase ASCII letters, digits and dashes as they are, every character of
`toClassName(s)` is a lowercase ASCII letter, a digit or a dash, `toClassName` applied
twice gives the same as applied once, and two titles whose lower-cased forms agree
position by position, up to characters that are both outside the digits and ASCII
letters, have the same class name, so the same hash and the same configuration key. -/
theorem toClassName_idempotent (toLowerCase : String → String)
    (hNoUpper : ∀ s : String, ∀ c ∈ (toLowerCase s).data, ¬ (65 ≤ c.toNat ∧ c.toNat ≤ 90))
    (hFix : ∀ s : String, (∀ c ∈ s.data, isClassChar c = true) → toLowerCase s = s) :
    (∀ s : String, ∀ c ∈ (toClassName toLowerCase s).data,
      (97 ≤ c.toNat ∧ c.toNat ≤ 122) ∨ (48 ≤ c.toNat ∧ c.toNat ≤ 57) ∨ c = '-') ∧
    (∀ s : String,
      toClassName toLowerCase (toClassName toLowerCase s) = toClassName toLowerCase s) ∧
    (∀ s t : String, toLowerCase s = toLowerCase t →
      toClassName toLowerCase s = toClassName toLowerCase t) ∧
    (∀ s t : String, List.Forall₂ sameKeyChar (toLowerCase s).data (toLowerCase t).data →
      toClassName toLowerCase s = toClassName toLowerCase t) := by
  have hchars : ∀ s : String, ∀ c ∈ (toClassName toLowerCase s).data,
      isClassChar c = true := by
    intro s c hc
    simp only [toClassName, List.mem_flatMap] at hc
    obtain ⟨a, ha, hca⟩ := hc
    exact dashed_isClassChar a (hNoUpper s a ha) c hca
  refine ⟨?_, ?_, ?_, ?_⟩
  · intro s c hc
    have := hchars s c hc
    simp only [isClassChar, Bool.or_eq_true, Bool.and_eq_true, decide_eq_true_eq] at this
    rcases this with (h | h) | h
    · exact Or.inl h
    · exact Or.inr (Or.inl h)
    · exact Or.inr (Or.inr h)
  · intro s
    have hfix := hFix (toClassName toLowerCase s) (hchars s)
    have hflat := flatMap_dashed_of_isClassChar _ (hchars s)
    conv_lhs => rw [toClassName, hfix, hflat]
  · intro s t hst
    simp only [toClassName, hst]
  · intro s t hst
    simp only [toClassName, flatMap_dashed_congr _ _ hst]

theorem toLower_of_not_upper (c : Char) (h : ¬ (65 ≤ c.toNat ∧ c.toNat ≤ 90)) :
    Char.toLower c = c := by
  unfold Char.toLower
  simp only [ge_iff_le, h, if_false]

theorem toLower_not_upper (c : Char) :
    ¬ (65 ≤ (Char.toLower c).toNat ∧ (Char.toLower c).toNat ≤ 90) := by
  by_cases h : 65 ≤ c.toNat ∧ c.toNat ≤ 90
  · have key : ∀ n : Nat, 65 ≤ n → n ≤ 90 →
        ¬ (65 ≤ (Char.toLower (Char.ofNat n)).toNat ∧
          (Char.toLower (Char.ofNat n)).toNat ≤ 90) := by
      intro n h1 h2
      interval_cases n <;> decide
    have := key c.toNat h.1 h.2
    rwa [Char.ofNat_toNat] at this
  · rw [toLower_of_not_upper c h]
    exact h

theorem asciiLowerCase_no_upper (s : String) :
    ∀ c ∈ (asciiLowerCase s).data, ¬ (65 ≤ c.toNat ∧ c.toNat ≤ 90) := by
  intro c hc
  simp only [asciiLowerCase, List.mem_map] at hc
  obtain ⟨a, _, rfl⟩ := hc
  exact toLower_not_upper a

theorem asciiLowerCase_fix (s : String) (h : ∀ c ∈ s.data, isClassChar c = true) :
    asciiLowerCase s = s := by
  have hmap : s.data.map Char.toLower = s.data := by
    conv_rhs => rw [← List.map_id s.data]
    apply List.map_congr_left
    intro c hc
    have hcls := h c hc
    simp only [isClassChar, Bool.or_eq_true, Bool.and_eq_true, decide_eq_true_eq] at hcls
    apply toLower_of_not_upper
    rintro ⟨h1, h2⟩
    rcases hcls with (h3 | h3) | h3
    · omega
    · omega
    · subst h3
      revert h1
      decide
  simp only [asciiLowerCase, hmap]

theorem toClassName_idempotent_witness :
    toClassName asciiLowerCase "How to: Resize a Photo!" = "how-to--resize-a-photo-" ∧
      toClassName asciiLowerCase (toClassName asciiLowerCase "How to: Resize a Photo!") =
        toClassName asciiLowerCase "How to: Resize a Photo!" :=
  ⟨by decide,
    (toClassName_idempotent asciiLowerCase asciiLowerCase_no_upper asciiLowerCase_fix).2.1
      "How to: Resize a Photo!"⟩

/-! ### Witnesses for the gating and for the page filter -/

theorem runTest_iff_witness :
    runTest ⟨"www.adobe.com", "", ""⟩ "Mozilla/5.0 (compatible; GoogleBot/2.1)" = false ∧
      (runTest ⟨"localhost:3000", "#intro", "?test"⟩ "Mozilla/5.0 (X11; Linux)" = true ↔
        isBot "Mozilla/5.0 (X11; Linux)" = false) ∧
      runTest ⟨"www.adobe.com", "", ""⟩ "Mozilla/5.0 (X11; Linux)" = true :=
  ⟨(runTest_iff ⟨"www.adobe.com", "", ""⟩ "Mozilla/5.0 (compatible; GoogleBot/2.1)").2.2.1
      (by decide),
    (runTest_iff ⟨"localhost:3000", "#intro", "?test"⟩ "Mozilla/5.0 (X11; Linux)").2.1 rfl,
    (runTest_iff ⟨"www.adobe.com", "", ""⟩ "Mozilla/5.0 (X11; Linux)").1.2
      ⟨by decide, Or.inr ⟨by decide, rfl⟩⟩⟩

theorem filterMigratedPages_count_witness :
    (filterMigratedPages ⟨[], ""⟩
        (some [⟨"/express/a.html", "/a.png", "A"⟩, ⟨"/express/b.html", "/b.png", "B"⟩])
        "").results.length =
      ((some [⟨"/express/a.html", "/a.png", "A"⟩, ⟨"/express/b.html", "/b.png", "B"⟩] :
        Option (List PageEntry)).getD []).length :=
  (filterMigratedPages_count ⟨[], ""⟩
    (some [⟨"/express/a.html", "/a.png", "A"⟩, ⟨"/express/b.html", "/b.png", "B"⟩])
    "").2.2.2.1 rfl

/-- C1 (as amended): when the cell loop of a block with label total `N` ends without an
exception, every cell has passed the numbering step: at row `k` (1-based,
`k = rowNum + 1`) the markup of the cell leaving that step is that of the cell entering
it with `<span class="num">label</span>` in front exactly when the block is numbered and
the cell is the first of its row, where the label is `0k/N —` for `N > 9` and `k < 10`,
`k/N —` for `N > 9` and `k ≥ 10`, and `k.` for `N ≤ 9`; every other cell, and every cell
of a block that is not numbered, gets no label. The loop ends without an exception when
no cell raises one. -/
theorem columns_numbered_label (steps : CellSteps) (numbered : Bool) (N : Int)
    (rows : List (List Cell)) :
    ((decorateRows (decorateCell steps numbered N) 0 rows).2 = none →
      ∀ (rowNum cellNum : Nat) (row : List Cell) (cell : Cell),
        rows[rowNum]? = some row → row[cellNum]? = some cell →
        ∃ (c1 c2 c' : Cell) (row' : List Cell),
          steps.iconList cell = .ok c1 ∧
          steps.media (numberCell numbered N rowNum cellNum c1) = .ok c2 ∧
          finishCell steps c2 = .ok c' ∧
          (decorateRows (decorateCell steps numbered N) 0 rows).1[rowNum]? = some row' ∧
          row'[cellNum]? = some c' ∧
          (numberCell numbered N rowNum cellNum c1).innerHTML =
            (if numbered = true ∧ cellNum = 0 then
              "<span class=\"num\">" ++
                (if N > 9 then
                  (if rowNum + 1 < 10 then
                    "0" ++ toString (rowNum + 1) ++ "/" ++ toString N ++ " —"
                  else toString (rowNum + 1) ++ "/" ++ toString N ++ " —")
                else toString (rowNum + 1) ++ ".") ++
                "</span>" ++ c1.innerHTML
            else c1.innerHTML)) ∧
    ((∀ (rowNum cellNum : Nat) (row : List Cell) (cell : Cell),
        rows[rowNum]? = some row → row[cellNum]? = some cell →
        ∃ c', decorateCell steps numbered N rowNum cellNum cell = .ok c') →
      (decorateRows (decorateCell steps numbered N) 0 rows).2 = none) := by
  constructor
  · intro hnone rowNum cellNum row cell hrow hcell
    obtain ⟨hrowNone, hrowGet⟩ := decorateRows_of_no_error _ rows 0 hnone rowNum row hrow
    rw [Nat.zero_add] at hrowNone hrowGet
    obtain ⟨c', hc', hcellGet⟩ := decorateCells_of_no_error _ row 0 hrowNone cellNum cell hcell
    rw [Nat.zero_add] at hc'
    unfold decorateCell at hc'
    cases h1 : steps.iconList cell with
    | error e => simp [h1] at hc'
    | ok c1 =>
      simp only [h1] at hc'
      cases h2 : steps.media (numberCell numbered N rowNum cellNum c1) with
      | error e => simp [h2] at hc'
      | ok c2 =>
        simp only [h2] at hc'
        refine ⟨c1, c2, c', _, rfl, h2, hc', hrowGet, hcellGet, ?_⟩
        unfold numberCell numLabel
        have hk : rowNum + 1 < 10 ↔ rowNum < 9 := by omega
        by_cases hn : numbered = true <;> by_cases hc : cellNum = 0 <;>
          by_cases hN : N > 9 <;> by_cases hk9 : rowNum < 9 <;>
          simp [hn, hc, hN, hk9, hk, String.append_assoc]
  · intro h
    apply decorateRows_progress
    intro i row hrow
    apply decorateCells_progress
    intro j c hc
    rw [Nat.zero_add, Nat.zero_add]
    exact h i j row c hrow hc

theorem columns_numbered_label_witness :
    ∃ (row' : List Cell) (c' : Cell),
      (decorateRows (decorateCell plainSteps true 12) 0
        [[⟨"<p>a</p>", some "P", []⟩, ⟨"<p>b</p>", some "P", []⟩]]).1[0]? = some row' ∧
      row'[0]? = some c' ∧
      c'.innerHTML = "<span class=\"num\">01/12 —</span><p>a</p>" := by
  obtain ⟨c1, c2, c', row', h1, h2, h3, h4, h5, -⟩ :=
    (columns_numbered_label plainSteps true 12
      [[⟨"<p>a</p>", some "P", []⟩, ⟨"<p>b</p>", some "P", []⟩]]).1 (by decide) 0 0
      [⟨"<p>a</p>", some "P", []⟩, ⟨"<p>b</p>", some "P", []⟩] ⟨"<p>a</p>", some "P", []⟩
      rfl rfl
  refine ⟨row', c', h4, h5, ?_⟩
  simp only [plainSteps, Except.ok.injEq] at h1 h2
  subst h1
  subst h2
  simp only [finishCell, numberCell, plainSteps] at h3
  simp at h3
  rw [← h3]
  decide

/-- C1 (as stated) fails: in a numbered block of two rows of two cells that hold text
only, the second cell of the first row has no element child, reading its tag name raises
`TypeError`, and the first cell of the second row is left without a label. -/
theorem columns_numbered_label_counterexample :
    decorate plainSteps []
        ⟨["columns", "numbered"],
          [[⟨"a", none, []⟩, ⟨"b", none, []⟩], [⟨"c", none, []⟩, ⟨"d", none, []⟩]]⟩ =
      some ⟨[], ["columns", "numbered", "table", "width-2-columns"],
        [[⟨"<span class=\"num\">1.</span>a", some "SPAN", ["column"]⟩,
            ⟨"b", none, ["column"]⟩],
          [⟨"c", none, []⟩, ⟨"d", none, []⟩]],
        some .typeError⟩ := by
  decide

/-! ### The total of a numbered list -/

/-- C12: the class list `decorate` reads is that of the block with `table` added for more
than one row and `width-K-columns` added for `K > 0` cells in the first row. The total of
the labels is the number of rows, unless the block is numbered, this class list has more
than 4 entries and `parseInt` reads an integer from its entry at index 3, in which case
the total is that integer; the row loop of `decorate` numbers the cells with this total,
so without such an entry the labels of a numbered block use the row count. -/
theorem columnsTotal_rows_or_override (b : ColumnsBlock) :
    columnsClassList b =
      addTokens (addTokens b.classList (if 1 < b.rows.length then ["table"] else []))
        (match b.rows with
          | [] => []
          | row :: _ =>
            if row.length = 0 then [] else ["width-" ++ toString row.length ++ "-columns"]) ∧
    (isNumberedList b = true ↔ "numbered" ∈ columnsClassList b) ∧
    (∀ (c : String) (i : Int), isNumberedList b = true → (columnsClassList b).length > 4 →
        (columnsClassList b)[3]? = some c → parseInt10 c = .exact i →
        columnsTotal b = some i) ∧
    ((isNumberedList b = false ∨ (columnsClassList b).length ≤ 4 ∨
        ∀ c : String, (columnsClassList b)[3]? = some c → parseInt10 c = .nan) →
      columnsTotal b = some (b.rows.length : Int)) ∧
    (∀ (steps : CellSteps) (headings : List Heading) (N : Int),
      (scaleHeader headings).2 = none → columnsTotal b = some N →
      decorate steps headings b =
        some ⟨(scaleHeader headings).1, columnsClassList b,
          (decorateRows (decorateCell steps (isNumberedList b) N) 0 b.rows).1,
          (decorateRows (decorateCell steps (isNumberedList b) N) 0 b.rows).2⟩) := by
  refine ⟨?_, by simp [isNumberedList], ?_, ?_, ?_⟩
  · unfold columnsClassList
    cases hrows : b.rows with
    | nil => simp [addTokens]
    | cons row rest =>
      by_cases h1 : 0 < rest.length <;> by_cases h0 : row.length = 0 <;>
        simp [h1, h0, addTokens]
  · intro c i hn hlen hc hi
    unfold columnsTotal
    simp [hn, hlen, hc, hi]
  · intro h
    unfold columnsTotal
    by_cases hcond : isNumberedList b = true ∧ (columnsClassList b).length > 4
    · rcases h with h | h | h
      · rw [h] at hcond
        exact absurd hcond.1 (by decide)
      · omega
      · simp only [hcond, and_self, if_true]
        cases hc : (columnsClassList b)[3]? with
        | none => rfl
        | some c => simp [h c hc]
    · simp only [hcond, if_false]
  · intro steps headings N hs hN
    simp only [decorate, hs, hN]

theorem columnsTotal_rows_or_override_witness :
    columnsTotal ⟨["columns", "numbered", "wide", "12"],
        [[⟨"a", none, []⟩, ⟨"x", none, []⟩], [⟨"b", none, []⟩, ⟨"y", none, []⟩]]⟩ =
      some 12 :=
  (columnsTotal_rows_or_override ⟨["columns", "numbered", "wide", "12"],
      [[⟨"a", none, []⟩, ⟨"x", none, []⟩], [⟨"b", none, []⟩, ⟨"y", none, []⟩]]⟩).2.2.1 "12" 12
    (by decide) (by decide) (by decide) (by decide)

theorem postMatches_cons_empty (toLowerCase : String → String) (nv : String × FilterValue)
    (rest : List (String × FilterValue)) (post : Post) (h : nv.2.toArray = []) :
    postMatches toLowerCase (normalizeFilters toLowerCase (nv :: rest)) post = .ok false := by
  simp [normalizeFilters, postMatches, h]

theorem postMatches_cons_none (toLowerCase : String → String) (nv : String × FilterValue)
    (rest : List (String × FilterValue)) (post : Post) (h : nv.2.toArray ≠ [])
    (hget : post.get nv.1 = none) :
    postMatches toLowerCase (normalizeFilters toLowerCase (nv :: rest)) post =
      .error .typeError := by
  cases hv : nv.2.toArray with
  | nil => exact absurd hv h
  | cons v vs => simp [normalizeFilters, postMatches, hv, hget]

theorem postMatches_cons_some (toLowerCase : String → String) (nv : String × FilterValue)
    (rest : List (String × FilterValue)) (post : Post) (field : String)
    (h : nv.2.toArray ≠ []) (hget : post.get nv.1 = some field) :
    postMatches toLowerCase (normalizeFilters toLowerCase (nv :: rest)) post =
      if nv.2.toArray.any (fun v => includes (toLowerCase field) (jsTrim (toLowerCase v)))
      then postMatches toLowerCase (normalizeFilters toLowerCase rest) post
      else .ok false := by
  cases hv : nv.2.toArray with
  | nil => exact absurd hv h
  | cons v vs =>
    simp only [normalizeFilters, List.map_cons, hv, postMatches, hget, List.any_cons,
      List.any_map]
    rfl

theorem postMatches_result (toLowerCase : String → String)
    (filters : List (String × FilterValue)) (post : Post) :
    (∀ b, postMatches toLowerCase (normalizeFilters toLowerCase filters) post = .ok b →
      b = decide (∀ nv ∈ filters, ∃ v ∈ nv.2.toArray,
        includes (toLowerCase ((post.get nv.1).getD "")) (jsTrim (toLowerCase v)) = true)) ∧
    (∀ e, postMatches toLowerCase (normalizeFilters toLowerCase filters) post = .error e ↔
      e = .typeError ∧ ∃ pre nv rest, filters = pre ++ nv :: rest ∧
        (∀ p ∈ pre, ∃ field, post.get p.1 = some field ∧ ∃ v ∈ p.2.toArray,
          includes (toLowerCase field) (jsTrim (toLowerCase v)) = true) ∧
        nv.2.toArray ≠ [] ∧ post.get nv.1 = none) := by
  induction filters with
  | nil =>
    refine ⟨?_, ?_⟩
    · intro b hb
      have h0 : postMatches toLowerCase (normalizeFilters toLowerCase []) post = .ok true := rfl
      rw [h0] at hb
      cases hb
      simp
    · intro e
      have h0 : postMatches toLowerCase (normalizeFilters toLowerCase []) post = .ok true := rfl
      rw [h0]
      constructor
      · intro h
        cases h
      · rintro ⟨_, pre, nv, rest, hsplit, _⟩
        simp at hsplit
  | cons nv rest ih =>
    by_cases hempty : nv.2.toArray = []
    · rw [postMatches_cons_empty toLowerCase nv rest post hempty]
      refine ⟨?_, ?_⟩
      · intro b hb
        cases hb
        simp [hempty]
      · intro e
        constructor
        · intro h
          cases h
        · rintro ⟨_, pre, nv', rest', hsplit, hpre, hne, _⟩
          cases pre with
          | nil =>
            simp only [List.nil_append, List.cons.injEq] at hsplit
            rw [← hsplit.1] at hne
            exact absurd hempty hne
          | cons p ps =>
            simp only [List.cons_append, List.cons.injEq] at hsplit
            obtain ⟨_, _, v, hv, _⟩ := hpre p (List.mem_cons_self _ _)
            rw [← hsplit.1, hempty] at hv
            cases hv
    · cases hget : post.get nv.1 with
      | none =>
        rw [postMatches_cons_none toLowerCase nv rest post hempty hget]
        refine ⟨?_, ?_⟩
        · intro b hb
          cases hb
        · intro e
          constructor
          · intro h
            cases h
            exact ⟨rfl, [], nv, rest, rfl, by simp, hempty, hget⟩
          · rintro ⟨rfl, _⟩
            rfl
      | some field =>
        rw [postMatches_cons_some toLowerCase nv rest post field hempty hget]
        by_cases hany : nv.2.toArray.any
            (fun v => includes (toLowerCase field) (jsTrim (toLowerCase v))) = true
        · rw [if_pos hany]
          have hex : ∃ v ∈ nv.2.toArray,
              includes (toLowerCase field) (jsTrim (toLowerCase v)) = true := by
            simpa [List.any_eq_true] using hany
          refine ⟨?_, ?_⟩
          · intro b hb
            rw [ih.1 b hb]
            simp only [List.forall_mem_cons, hget, Option.getD_some, hex, true_and]
          · intro e
            rw [ih.2 e]
            constructor
            · rintro ⟨he, pre, nv', rest', hsplit, hpre, hne, hnone⟩
              refine ⟨he, nv :: pre, nv', rest', by simp [hsplit], ?_, hne, hnone⟩
              intro p hp
              rcases List.mem_cons.1 hp with rfl | hp
              · exact ⟨field, hget, hex⟩
              · exact hpre p hp
            · rintro ⟨he, pre, nv', rest', hsplit, hpre, hne, hnone⟩
              cases pre with
              | nil =>
                simp only [List.nil_append, List.cons.injEq] at hsplit
                rw [← hsplit.1, hget] at hnone
                cases hnone
              | cons p ps =>
                simp only [List.cons_append, List.cons.injEq] at hsplit
                exact ⟨he, ps, nv', rest', hsplit.2, fun q hq =>
                  hpre q (List.mem_cons_of_mem _ hq), hne, hnone⟩
        · rw [if_neg hany]
          have hex : ¬ ∃ v ∈ nv.2.toArray,
              includes (toLowerCase field) (jsTrim (toLowerCase v)) = true := by
            simpa [List.any_eq_true] using hany
          refine ⟨?_, ?_⟩
          · intro b hb
            cases hb
            simp only [List.forall_mem_cons, hget, Option.getD_some, hex, false_and,
              decide_False]
          · intro e
            constructor
            · intro h
              cases h
            · rintro ⟨_, pre, nv', rest', hsplit, hpre, hne, hnone⟩
              cases pre with
              | nil =>
                simp only [List.nil_append, List.cons.injEq] at hsplit
                rw [← hsplit.1, hget] at hnone
                cases hnone
              | cons p ps =>
                simp only [List.cons_append, List.cons.injEq] at hsplit
                obtain ⟨field', hf', hv'⟩ := hpre p (List.mem_cons_self _ _)
                rw [← hsplit.1, hget] at hf'
                cases hf'
                rw [← hsplit.1] at hv'
                exact absurd hv' hex

theorem filterPosts_result (toLowerCase : String → String) (f : List (String × List String))
    (keep : Post → Bool) (index : List Post)
    (hkeep : ∀ post ∈ index, ∀ b, postMatches toLowerCase f post = .ok b → b = keep post)
    (herr : ∀ post ∈ index, ∀ e, postMatches toLowerCase f post = .error e → e = .typeError) :
    (∀ r, filterPosts toLowerCase f index = .ok r → r = index.filter keep) ∧
    (∀ e, filterPosts toLowerCase f index = .error e → e = .typeError) ∧
    (filterPosts toLowerCase f index = .error .typeError ↔
      ∃ post ∈ index, postMatches toLowerCase f post = .error .typeError) := by
  induction index with
  | nil =>
    have h0 : filterPosts toLowerCase f [] = .ok [] := rfl
    rw [h0]
    refine ⟨?_, ?_, ?_⟩
    · intro r hr
      cases hr
      rfl
    · intro e he
      cases he
    · constructor
      · intro h
        cases h
      · rintro ⟨_, hmem, _⟩
        cases hmem
  | cons post rest ih =>
    have ih := ih (fun p hp => hkeep p (List.mem_cons_of_mem _ hp))
      (fun p hp => herr p (List.mem_cons_of_mem _ hp))
    cases hp : postMatches toLowerCase f post with
    | error e0 =>
      have he0 := herr post (List.mem_cons_self _ _) e0 hp
      subst he0
      have h0 : filterPosts toLowerCase f (post :: rest) = .error .typeError := by
        rw [filterPosts]
        simp only [hp]
      rw [h0]
      refine ⟨?_, ?_, ?_⟩
      · intro r hr
        cases hr
      · intro e he
        cases he
        rfl
      · exact ⟨fun _ => ⟨post, List.mem_cons_self _ _, hp⟩, fun _ => rfl⟩
    | ok b =>
      have hb := hkeep post (List.mem_cons_self _ _) b hp
      cases hr : filterPosts toLowerCase f rest with
      | error e1 =>
        have he1 := ih.2.1 e1 hr
        subst he1
        have h0 : filterPosts toLowerCase f (post :: rest) = .error .typeError := by
          rw [filterPosts]
          simp only [hp, hr]
        rw [h0]
        refine ⟨?_, ?_, ?_⟩
        · intro r hr
          cases hr
        · intro e he
          cases he
          rfl
        · refine ⟨fun _ => ?_, fun _ => rfl⟩
          obtain ⟨p, hpmem, hperr⟩ := ih.2.2.1 hr
          exact ⟨p, List.mem_cons_of_mem _ hpmem, hperr⟩
      | ok kept =>
        have hkept := ih.1 kept hr
        have h0 : filterPosts toLowerCase f (post :: rest) =
            .ok (if b then post :: kept else kept) := by
          rw [filterPosts]
          simp only [hp, hr]
        rw [h0]
        refine ⟨?_, ?_, ?_⟩
        · intro r hr
          cases hr
          rw [hb, hkept, List.filter_cons]
        · intro e he
          cases he
        · constructor
          · intro h
            cases h
          · rintro ⟨p, hpmem, hperr⟩
            rcases List.mem_cons.1 hpmem with rfl | hpmem
            · rw [hp] at hperr
              cases hperr
            · have := ih.2.2.2 ⟨p, hpmem, hperr⟩
              rw [hr] at this
              cases this

/-- C16: whenever `filterBlogPosts` returns, it returns, in index order, exactly the posts
such that for every filter name some value of that filter, lower-cased and trimmed,
occurs in the lower-cased field of that name. It returns exactly when no post of the
index lacks the field of a filter name that has a value while every filter name before
it has a matching value in that post; otherwise it raises `TypeError`. In particular it
returns when every post has a field for every filter name that has a value. With no
filter it returns the whole index, and a single string as the value of a filter gives
the same result as the array holding just that string. -/
theorem filterBlogPosts_and_of_or (toLowerCase : String → String) (index : List Post)
    (filters : List (String × FilterValue)) :
    (∀ r, filterBlogPosts toLowerCase index filters = .ok r →
      r = index.filter fun post =>
        decide (∀ nv ∈ filters, ∃ v ∈ nv.2.toArray,
          includes (toLowerCase ((post.get nv.1).getD "")) (jsTrim (toLowerCase v)) =
            true)) ∧
    ((∃ r, filterBlogPosts toLowerCase index filters = .ok r) ↔
      ¬ ∃ post ∈ index, ∃ pre nv rest, filters = pre ++ nv :: rest ∧
        (∀ p ∈ pre, ∃ field, post.get p.1 = some field ∧ ∃ v ∈ p.2.toArray,
          includes (toLowerCase field) (jsTrim (toLowerCase v)) = true) ∧
        nv.2.toArray ≠ [] ∧ post.get nv.1 = none) ∧
    ((¬ ∃ r, filterBlogPosts toLowerCase index filters = .ok r) →
      filterBlogPosts toLowerCase index filters = .error .typeError) ∧
    ((∀ post ∈ index, ∀ nv ∈ filters, nv.2.toArray ≠ [] → (post.get nv.1).isSome = true) →
      filterBlogPosts toLowerCase index filters =
        .ok (index.filter fun post =>
          decide (∀ nv ∈ filters, ∃ v ∈ nv.2.toArray,
            includes (toLowerCase ((post.get nv.1).getD "")) (jsTrim (toLowerCase v)) =
              true))) ∧
    filterBlogPosts toLowerCase index [] = .ok index ∧
    (∀ (name v : String) (rest : List (String × FilterValue)),
      filterBlogPosts toLowerCase index ((name, .scalar v) :: rest) =
        filterBlogPosts toLowerCase index ((name, .array [v]) :: rest)) := by
  have R := filterPosts_result toLowerCase (normalizeFilters toLowerCase filters)
    (fun post => decide (∀ nv ∈ filters, ∃ v ∈ nv.2.toArray,
      includes (toLowerCase ((post.get nv.1).getD "")) (jsTrim (toLowerCase v)) = true))
    index
    (fun post _ b hb => (postMatches_result toLowerCase filters post).1 b hb)
    (fun post _ e he => (((postMatches_result toLowerCase filters post).2 e).1 he).1)
  have hiff : (∃ r, filterBlogPosts toLowerCase index filters = .ok r) ↔
      ¬ ∃ post ∈ index, ∃ pre nv rest, filters = pre ++ nv :: rest ∧
        (∀ p ∈ pre, ∃ field, post.get p.1 = some field ∧ ∃ v ∈ p.2.toArray,
          includes (toLowerCase field) (jsTrim (toLowerCase v)) = true) ∧
        nv.2.toArray ≠ [] ∧ post.get nv.1 = none := by
    unfold filterBlogPosts
    constructor
    · rintro ⟨r, hr⟩ ⟨post, hmem, hsplit⟩
      have herr := R.2.2.2 ⟨post, hmem,
        ((postMatches_result toLowerCase filters post).2 .typeError).2 ⟨rfl, hsplit⟩⟩
      rw [hr] at herr
      cases herr
    · intro hno
      cases hres : filterPosts toLowerCase (normalizeFilters toLowerCase filters) index with
      | ok r => exact ⟨r, rfl⟩
      | error e =>
        have he := R.2.1 e hres
        subst he
        obtain ⟨post, hmem, hperr⟩ := R.2.2.1 hres
        exact absurd ⟨post, hmem,
          (((postMatches_result toLowerCase filters post).2 .typeError).1 hperr).2⟩ hno
  refine ⟨R.1, hiff, ?_, ?_, ?_, fun _ _ _ => rfl⟩
  · intro hno
    unfold filterBlogPosts at hno ⊢
    cases hres : filterPosts toLowerCase (normalizeFilters toLowerCase filters) index with
    | ok r => exact absurd ⟨r, hres⟩ hno
    | error e => rw [R.2.1 e hres]
  · intro h
    obtain ⟨r, hr⟩ := hiff.2 (by
      rintro ⟨post, hmem, pre, nv, rest, hsplit, _, hne, hnone⟩
      have := h post hmem nv (by rw [hsplit]; simp) hne
      rw [hnone] at this
      cases this)
    rw [hr, R.1 r hr]
  · have := filterPosts_ok toLowerCase [] index (by simp)
    unfold filterBlogPosts normalizeFilters
    simpa using this

theorem filterBlogPosts_and_of_or_witness :
    filterBlogPosts (fun s => ⟨s.data.map Char.toLower⟩)
        [⟨[("title", "Logo Tips"), ("tags", "Design")]⟩,
          ⟨[("title", "Flyers"), ("tags", "print")]⟩]
        [("tags", .array [" DESIGN ", "video"]), ("title", .scalar "logo")] =
      .ok [⟨[("title", "Logo Tips"), ("tags", "Design")]⟩] := by
  rw [(filterBlogPosts_and_of_or (fun s => ⟨s.data.map Char.toLower⟩)
    [⟨[("title", "Logo Tips"), ("tags", "Design")]⟩,
      ⟨[("title", "Flyers"), ("tags", "print")]⟩]
    [("tags", .array [" DESIGN ", "video"]), ("title", .scalar "logo")]).2.2.2.1 (by decide)]
  congr 1

theorem filterBlogPosts_and_of_or_counterexample :
    filterBlogPosts (fun s => ⟨s.data.map Char.toLower⟩)
        [⟨[("title", "Logo Tips"), ("tags", "Design")]⟩, ⟨[("title", "Flyers")]⟩]
        [("tags", .scalar "design")] = .error .typeError := by
  rfl

/-- Remark on repeated runs: the new lengths are computed from the table values, not from
the current ones. An H2 already set to 27 and 29.16 pixels, then 116 pixels high and so of
4 lines, is set to 33.75 and 36.45 pixels, above its current lengths. -/
theorem scaleHeading_from_table_values :
    scaleHeading ⟨.H2, true, "116px", "29.16px", some (.fin 27), some (.fin (729 / 25))⟩ =
      .ok ⟨.H2, true, "116px", "29.16px", some (.fin (135 / 4)), some (.fin (729 / 20))⟩ ∧
    (27 : ℚ) < 135 / 4 ∧ (729 / 25 : ℚ) < 729 / 20 := by
  have hm : matchLineHeight "29.16px".data = some (['2', '9'], some ('.', ['1', '6'])) := by
    decide
  have h29 : digitsValue ['2', '9'] = 29 := by decide
  have h16 : digitsValue ['1', '6'] = 16 := by decide
  have hlh : lineHeightFloat "29.16px" = some (729 / 25) := by
    simp only [lineHeightFloat, hm, h29, h16]
    norm_num
  have hceil : ⌈((116 : Nat) : ℚ) / (729 / 25)⌉ = 4 := by
    rw [Int.ceil_eq_iff]
    norm_num
  have hs := scaleHeading_of_lines
    ⟨.H2, true, "116px", "29.16px", some (.fin 27), some (.fin (729 / 25))⟩ 116 (729 / 25)
    (by decide) hlh (by norm_num) (by rw [hceil]; norm_num)
  rw [hceil] at hs
  refine ⟨?_, by norm_num, by norm_num⟩
  rw [hs]
  norm_num [convTag2FontSize, convTag2LineHeight]

/-- Remark on integral line heights: the pattern of line 82 needs a character between two
digit runs, so the line height `48px` is read as `NaN`, and an H2 of 240 pixels at that
line height, which spans 5 lines, is left as it is. -/
theorem scaleHeading_integral_line_height :
    lineHeightFloat "48px" = none ∧
    scaleHeading ⟨.H2, true, "240px", "48px", none, none⟩ =
      .ok ⟨.H2, true, "240px", "48px", none, none⟩ := by
  have hm : matchLineHeight "48px".data = none := by decide
  have hlh : lineHeightFloat "48px" = none := by
    simp only [lineHeightFloat, hm]
  have hH : heightInt "240px" = some 240 := by decide
  refine ⟨hlh, ?_⟩
  simp only [scaleHeading, hH, hlh, headerLines, scaleOf]

end SummitExpress
